import Mathlib

/-!
# video_colorblind: colour conversions and the protanope simulation

A shallow embedding of `src/color/color.cpp` and `src/color/proto.cpp`.

Modelling conventions.

* A C++ `double` is an element of a linearly ordered field `α` with a floor
  function.  Every definition is generic in `α`: over `ℚ` it is executable, over
  `ℝ` it is the exact-arithmetic reading of the program that the theorems are
  about.
* The two libm functions that are not field operations, `pow` and `sqrt`, are
  parameters of the functions that call them.  The theorems instantiate them
  with `Real.rpow` and `Real.sqrt`.
* `assert(e)` is a failure: a function that contains an assertion returns
  `Except AssertFailure _`, and the constructor names the assertion that
  failed.
* `round` of libm (halfway cases away from zero) is `cRound`.
-/

namespace VideoColorblind

/-! ## color.hpp: the colour types and constants -/

/-- An RGB colour, intensities nominally between 0 and 255. -/
structure Rgb (α : Type) where
  r : α
  g : α
  b : α

/-- An xyY colour. -/
structure Xyy (α : Type) where
  x : α
  y : α
  Y : α

/-- An XYZ colour. -/
structure Xyz (α : Type) where
  x : α
  y : α
  z : α

/-- The assertions of the program; a value names the one that failed. -/
inductive AssertFailure where
  /-- `assert(intensity >= 0)` in `srgbToLinearGamma`. -/
  | gammaBelowZero
  /-- `assert(intensity <= 1)` in `srgbToLinearGamma`. -/
  | gammaAboveOne
  /-- `assert(discriminant >= 0)` in `intersectCurveLineXyy`. -/
  | negativeDiscriminant
  deriving DecidableEq, Repr

section Definitions

variable {α : Type} [LinearOrderedField α]

/-- The sRGB red primary in xyY. -/
def XYY_RED_PRIMARY : Xyy α := ⟨0.648427223687212, 0.33085610147277805, 0.2225045⟩

/-- The sRGB green primary in xyY. -/
def XYY_GREEN_PRIMARY : Xyy α := ⟨0.32114218947031314, 0.5978731460291832, 0.7168786⟩

/-- The sRGB blue primary in xyY. -/
def XYY_BLUE_PRIMARY : Xyy α := ⟨0.15588297522548386, 0.06604079049922723, 0.0606169⟩

/-- The D50 white point in xyY. -/
def XYY_WHITE_D50 : Xyy α := ⟨0.3457, 0.3585, 1⟩

/-- The 470 wavelength in xyY. -/
def XYY_470 : Xyy α := ⟨0.12412, 0.05780, 0.090980⟩

/-- The 575 wavelength in xyY. -/
def XYY_575 : Xyy α := ⟨0.47877, 0.52020, 0.915400⟩

/-! ## color.cpp -/

/-- Conversion of XYZ to xyY; a zero sum gives the D50 white chromaticity. -/
def xyzToXyy (xyz : Xyz α) : Xyy α :=
  let sum := xyz.x + xyz.y + xyz.z
  if sum ≠ 0 then
    ⟨xyz.x / sum, xyz.y / sum, xyz.y⟩
  else
    ⟨(XYY_WHITE_D50 : Xyy α).x, (XYY_WHITE_D50 : Xyy α).y, xyz.y⟩

/-- Conversion of xyY to XYZ; `y = 0` gives the zero colour. -/
def xyyToXyz (xyy : Xyy α) : Xyz α :=
  if xyy.y ≠ 0 then
    ⟨xyy.x * xyy.Y / xyy.y, xyy.Y, (1 - xyy.x - xyy.y) * xyy.Y / xyy.y⟩
  else
    ⟨0, 0, 0⟩

/-- Gamma-corrects an sRGB intensity; the two assertions come first. -/
def srgbToLinearGamma (pow : α → α → α) (intensity : α) : Except AssertFailure α :=
  if ¬ (intensity ≥ 0) then .error .gammaBelowZero
  else if ¬ (intensity ≤ 1) then .error .gammaAboveOne
  else if intensity < 0.04045 then .ok (intensity / 12.92)
  else
    let alpha : α := 0.055
    .ok (pow ((intensity + alpha) / (1 + alpha)) 2.4)

/-- Gamma-corrects a linear intensity that was converted from XYZ. -/
def linearToSrgbGamma (pow : α → α → α) (intensity : α) : α :=
  if intensity ≤ 0.0031308 then intensity * 12.92
  else
    let alpha : α := 0.055
    (1 + alpha) * pow intensity (1 / 2.4) - alpha

/-- Conversion of RGB to XYZ (Bradford-adapted D65 to D50 matrix). -/
def rgbToXyz (pow : α → α → α) (rgb : Rgb α) : Except AssertFailure (Xyz α) :=
  match srgbToLinearGamma pow (rgb.r / 255) with
  | .error e => .error e
  | .ok r =>
    match srgbToLinearGamma pow (rgb.g / 255) with
    | .error e => .error e
    | .ok g =>
      match srgbToLinearGamma pow (rgb.b / 255) with
      | .error e => .error e
      | .ok b =>
        let X := r * 0.4360747 + g * 0.3850649 + b * 0.1430804
        let Y := r * 0.2225045 + g * 0.7168786 + b * 0.0606169
        let Z := r * 0.0139322 + g * 0.0971045 + b * 0.7141733
        .ok ⟨X, Y, Z⟩

/-- Conversion of XYZ to RGB; nothing is clamped. -/
def xyzToRgb (pow : α → α → α) (xyz : Xyz α) : Rgb α :=
  let newR := xyz.x * 3.1338561 + xyz.y * -1.6168667 + xyz.z * -0.4906146
  let newG := xyz.x * -0.9787684 + xyz.y * 1.9161415 + xyz.z * 0.0334540
  let newB := xyz.x * 0.0719453 + xyz.y * -0.2289914 + xyz.z * 1.4052427
  let finalR := linearToSrgbGamma pow newR
  let finalG := linearToSrgbGamma pow newG
  let finalB := linearToSrgbGamma pow newB
  ⟨255 * finalR, 255 * finalG, 255 * finalB⟩

/-! ## proto.cpp -/

/-- The protanope confusion point in xyY. -/
def xyyConfusionPoint : Xyy α := ⟨0.747, 0.253, 1.0⟩

/-- The coefficients of a quadratic polynomial. -/
structure QuadraticPolynomial (α : Type) where
  xSquare : α
  x : α
  c : α

/-- One step of the Lagrange interpolation. -/
def lagrangeStepXyy (xyy0 xyy1 xyy2 : Xyy α) : QuadraticPolynomial α :=
  let xSquare := xyy0.y / ((xyy0.x - xyy1.x) * (xyy0.x - xyy2.x))
  let x := xSquare * -xyy1.x + xSquare * -xyy2.x
  let c := xSquare * xyy1.x * xyy2.x
  ⟨xSquare, x, c⟩

/-- Lagrange interpolation through three points. -/
def lagrangeInterpolateXyy (xyy0 xyy1 xyy2 : Xyy α) : QuadraticPolynomial α :=
  let result0 := lagrangeStepXyy xyy0 xyy1 xyy2
  let result1 := lagrangeStepXyy xyy1 xyy0 xyy2
  let result2 := lagrangeStepXyy xyy2 xyy0 xyy1
  ⟨result0.xSquare + result1.xSquare + result2.xSquare,
   result0.x + result1.x + result2.x,
   result0.c + result1.c + result2.c⟩

/-- The curve of the colours a protanope sees: through 470, 575 and white. -/
def xyyVisionCurve : QuadraticPolynomial α :=
  lagrangeInterpolateXyy XYY_470 XYY_575 XYY_WHITE_D50

/-- A line `y = m * x + b`. -/
structure Line (α : Type) where
  m : α
  b : α

/-- The line between two xyY coordinates; the points are swapped first when
the first lies to the right of the second. -/
def xyyLine (xyy0 xyy1 : Xyy α) : Line α :=
  if xyy0.x > xyy1.x then
    xyyLine xyy1 xyy0
  else
    let slope := (xyy1.y - xyy0.y) / (xyy1.x - xyy0.x)
    ⟨slope, xyy0.y - slope * xyy0.x⟩
termination_by (if xyy0.x > xyy1.x then 1 else 0 : ℕ)
decreasing_by
  rename_i h
  have h2 : ¬ (xyy1.x > xyy0.x) := not_lt_of_gt h
  simp [h, h2]

/-- The luminance a protan perceives. -/
def getProtanLuminance (xyz : Xyz α) : α :=
  -0.460 * xyz.x + 1.359 * xyz.y + 0.101 * xyz.z

/-- The discriminant `B*B - 4*A*C` that `intersectCurveLineXyy` computes. -/
def discriminant (poly : QuadraticPolynomial α) (line : Line α) : α :=
  let A := poly.xSquare
  let B := poly.x - line.m
  let C := poly.c - line.b
  B * B - 4.0 * A * C

/-- Intersection of a quadratic and a line by the quadratic formula. -/
def intersectCurveLineXyy (sqrt : α → α) (poly : QuadraticPolynomial α) (line : Line α)
    (Y : α) : Except AssertFailure (Xyy α) :=
  let A := poly.xSquare
  let B := poly.x - line.m
  let C := poly.c - line.b
  let discriminant := B * B - 4.0 * A * C
  if ¬ (discriminant ≥ 0) then .error .negativeDiscriminant
  else
    let x := (-B + sqrt discriminant) / (2.0 * A)
    .ok ⟨x, line.m * x + line.b, Y⟩

/-- Best effort to move a colour back within the sRGB triangle. -/
def moveWithinRgb (line : Line α) (xyy : Xyy α) : Xyy α :=
  let primaryLine : Line α :=
    if xyy.x < (XYY_GREEN_PRIMARY : Xyy α).x then
      xyyLine XYY_BLUE_PRIMARY XYY_GREEN_PRIMARY
    else
      xyyLine XYY_GREEN_PRIMARY XYY_RED_PRIMARY
  let y := primaryLine.m * xyy.x + primaryLine.b
  if xyy.y > y then
    let newX := (primaryLine.b - line.b) / (line.m - primaryLine.m)
    let newY := primaryLine.m * newX + primaryLine.b
    ⟨newX, newY, xyy.Y⟩
  else
    xyy

/-- Returns `x` if within `min` and `max`, otherwise the violated bound. -/
def clamp (min x max : α) : α :=
  Max.max min (Min.min x max)

/-- The libm `round`: to the nearest integer, halfway cases away from zero. -/
def cRound [FloorRing α] (x : α) : α :=
  if 0 ≤ x then ((⌊x + 1 / 2⌋ : ℤ) : α) else ((⌈x - 1 / 2⌉ : ℤ) : α)

/-- An estimate of the colour as a protanope perceives it. -/
def getProtoColor [FloorRing α] (pow : α → α → α) (sqrt : α → α) (inputRgb : Rgb α) :
    Except AssertFailure (Rgb α) :=
  match rgbToXyz pow inputRgb with
  | .error e => .error e
  | .ok xyz =>
    let xyy := xyzToXyy xyz
    let protanLuminance := getProtanLuminance xyz
    let confusionLine := xyyLine xyyConfusionPoint xyy
    match intersectCurveLineXyy sqrt xyyVisionCurve confusionLine protanLuminance with
    | .error e => .error e
    | .ok xyyIntersection =>
      let boundedXyy := moveWithinRgb confusionLine xyyIntersection
      let returnRgb := xyzToRgb pow (xyyToXyz boundedXyy)
      .ok ⟨clamp 0 (cRound returnRgb.r) 255,
           clamp 0 (cRound returnRgb.g) 255,
           clamp 0 (cRound returnRgb.b) 255⟩

/-- The channels of an `Rgb` all lie in `[0, 255]`. -/
def Rgb.InRange (rgb : Rgb α) : Prop :=
  (0 ≤ rgb.r ∧ rgb.r ≤ 255) ∧ (0 ≤ rgb.g ∧ rgb.g ≤ 255) ∧ (0 ≤ rgb.b ∧ rgb.b ≤ 255)

/-- Membership in the range is decidable, as the comparisons of the field are. -/
instance Rgb.decidableInRange (rgb : Rgb α) : Decidable rgb.InRange := by
  unfold Rgb.InRange
  infer_instance

end Definitions

/-! ## Assertions and the output range (any field, any `pow` and `sqrt`) -/

section Generic

variable {α : Type} [LinearOrderedField α]

theorem srgbToLinearGamma_isOk_iff (pow : α → α → α) (v : α) :
    (∃ y, srgbToLinearGamma pow v = .ok y) ↔ 0 ≤ v ∧ v ≤ 1 := by
  unfold srgbToLinearGamma
  by_cases h0 : 0 ≤ v
  · by_cases h1 : v ≤ 1
    · by_cases h2 : v < 0.04045 <;> simp [h0, h1, h2]
    · simp [h0, h1]
  · simp [h0]

theorem srgbToLinearGamma_error (pow : α → α → α) (v : α) (e : AssertFailure)
    (h : srgbToLinearGamma pow v = .error e) :
    (e = .gammaBelowZero ∨ e = .gammaAboveOne) ∧ ¬ (0 ≤ v ∧ v ≤ 1) := by
  unfold srgbToLinearGamma at h
  by_cases h0 : 0 ≤ v
  · by_cases h1 : v ≤ 1
    · by_cases h2 : v < 0.04045 <;> simp [h0, h1, h2] at h
    · simp [h0, h1] at h
      simp [← h, h1]
  · simp [h0] at h
    simp [← h, h0]

theorem div_255_mem_iff (c : α) : (0 ≤ c / 255 ∧ c / 255 ≤ 1) ↔ (0 ≤ c ∧ c ≤ 255) := by
  have h : (0 : α) < 255 := by norm_num
  rw [le_div_iff₀ h, div_le_iff₀ h]
  simp

theorem rgbToXyz_isOk_iff (pow : α → α → α) (rgb : Rgb α) :
    (∃ xyz, rgbToXyz pow rgb = .ok xyz) ↔ rgb.InRange := by
  unfold Rgb.InRange
  rw [← div_255_mem_iff rgb.r, ← div_255_mem_iff rgb.g, ← div_255_mem_iff rgb.b,
    ← srgbToLinearGamma_isOk_iff pow, ← srgbToLinearGamma_isOk_iff pow,
    ← srgbToLinearGamma_isOk_iff pow]
  unfold rgbToXyz
  cases hr : srgbToLinearGamma pow (rgb.r / 255) with
  | error e => simp
  | ok r =>
    cases hg : srgbToLinearGamma pow (rgb.g / 255) with
    | error e => simp
    | ok g =>
      cases hb : srgbToLinearGamma pow (rgb.b / 255) with
      | error e => simp
      | ok b => simp

theorem rgbToXyz_error (pow : α → α → α) (rgb : Rgb α) (e : AssertFailure)
    (h : rgbToXyz pow rgb = .error e) :
    (e = .gammaBelowZero ∨ e = .gammaAboveOne) ∧ ¬ rgb.InRange := by
  have hno : ¬ rgb.InRange := by
    rw [← rgbToXyz_isOk_iff pow]
    rintro ⟨xyz, hx⟩
    rw [hx] at h
    cases h
  refine ⟨?_, hno⟩
  unfold rgbToXyz at h
  cases hr : srgbToLinearGamma pow (rgb.r / 255) with
  | error e1 =>
    rw [hr] at h; simp at h; subst h
    exact (srgbToLinearGamma_error pow _ _ hr).1
  | ok r =>
    cases hg : srgbToLinearGamma pow (rgb.g / 255) with
    | error e1 =>
      rw [hr, hg] at h; simp at h; subst h
      exact (srgbToLinearGamma_error pow _ _ hg).1
    | ok g =>
      cases hb : srgbToLinearGamma pow (rgb.b / 255) with
      | error e1 =>
        rw [hr, hg, hb] at h; simp at h; subst h
        exact (srgbToLinearGamma_error pow _ _ hb).1
      | ok b => rw [hr, hg, hb] at h; simp at h

/-- Claim C6 (gamma input precondition): `srgbToLinearGamma` succeeds if and only if
its intensity lies in the closed interval `[0, 1]` and fails on every other
intensity; consequently `rgbToXyz` succeeds if and only if every channel of its
argument lies in `[0, 255]`.  This holds for any `pow`. -/
theorem gamma_input_precondition (pow : α → α → α) :
    (∀ v : α, (∃ y, srgbToLinearGamma pow v = .ok y) ↔ 0 ≤ v ∧ v ≤ 1) ∧
    (∀ v : α, ¬ (0 ≤ v ∧ v ≤ 1) → ∃ e, srgbToLinearGamma pow v = .error e) ∧
    (∀ rgb : Rgb α, (∃ xyz, rgbToXyz pow rgb = .ok xyz) ↔
      (0 ≤ rgb.r ∧ rgb.r ≤ 255) ∧ (0 ≤ rgb.g ∧ rgb.g ≤ 255) ∧ (0 ≤ rgb.b ∧ rgb.b ≤ 255)) := by
  refine ⟨srgbToLinearGamma_isOk_iff pow, ?_, rgbToXyz_isOk_iff pow⟩
  intro v hv
  cases h : srgbToLinearGamma pow v with
  | error e => exact ⟨e, rfl⟩
  | ok y => exact absurd ((srgbToLinearGamma_isOk_iff pow v).1 ⟨y, h⟩) hv

theorem clamp_mem (x : α) : 0 ≤ clamp 0 x 255 ∧ clamp 0 x 255 ≤ 255 := by
  unfold clamp
  constructor
  · exact le_max_left _ _
  · exact max_le (by norm_num) (min_le_right _ _)

theorem clamp_cRound_int [FloorRing α] (x : α) : ∃ n : ℤ, clamp 0 (cRound x) 255 = (n : α) := by
  unfold clamp cRound
  split_ifs
  · refine ⟨Max.max 0 (Min.min ⌊x + 1 / 2⌋ 255), ?_⟩
    push_cast
    rfl
  · refine ⟨Max.max 0 (Min.min ⌈x - 1 / 2⌉ 255), ?_⟩
    push_cast
    rfl

theorem getProtoColor_ok_range [FloorRing α] (pow : α → α → α) (sqrt : α → α)
    (rgb out : Rgb α) (h : getProtoColor pow sqrt rgb = .ok out) :
    ((∃ n : ℤ, out.r = (n : α)) ∧ 0 ≤ out.r ∧ out.r ≤ 255) ∧
    ((∃ n : ℤ, out.g = (n : α)) ∧ 0 ≤ out.g ∧ out.g ≤ 255) ∧
    ((∃ n : ℤ, out.b = (n : α)) ∧ 0 ≤ out.b ∧ out.b ≤ 255) ∧
    (∃ xyz, rgbToXyz pow out = .ok xyz) ∧
    (∀ e, getProtoColor pow sqrt out = .error e → e = .negativeDiscriminant) := by
  unfold getProtoColor at h
  cases hx : rgbToXyz pow rgb with
  | error e => rw [hx] at h; simp at h
  | ok xyz =>
    rw [hx] at h
    simp only at h
    cases hi : intersectCurveLineXyy sqrt xyyVisionCurve
        (xyyLine xyyConfusionPoint (xyzToXyy xyz)) (getProtanLuminance xyz) with
    | error e => rw [hi] at h; simp at h
    | ok p =>
      rw [hi] at h
      simp only [Except.ok.injEq] at h
      subst h
      simp only
      have hr : Rgb.InRange (⟨clamp 0 (cRound (xyzToRgb pow (xyyToXyz (moveWithinRgb
            (xyyLine xyyConfusionPoint (xyzToXyy xyz)) p))).r) 255,
          clamp 0 (cRound (xyzToRgb pow (xyyToXyz (moveWithinRgb
            (xyyLine xyyConfusionPoint (xyzToXyy xyz)) p))).g) 255,
          clamp 0 (cRound (xyzToRgb pow (xyyToXyz (moveWithinRgb
            (xyyLine xyyConfusionPoint (xyzToXyy xyz)) p))).b) 255⟩ : Rgb α) :=
        ⟨clamp_mem _, clamp_mem _, clamp_mem _⟩
      refine ⟨⟨clamp_cRound_int _, clamp_mem _⟩, ⟨clamp_cRound_int _, clamp_mem _⟩,
        ⟨clamp_cRound_int _, clamp_mem _⟩, (rgbToXyz_isOk_iff pow _).2 hr, ?_⟩
      intro e he
      obtain ⟨xyz2, hx2⟩ := (rgbToXyz_isOk_iff pow _).2 hr
      unfold getProtoColor at he
      rw [hx2] at he
      simp only at he
      cases hi2 : intersectCurveLineXyy sqrt xyyVisionCurve
          (xyyLine xyyConfusionPoint (xyzToXyy xyz2)) (getProtanLuminance xyz2) with
      | ok p2 => rw [hi2] at he; simp at he
      | error e2 =>
        rw [hi2] at he
        simp only [Except.error.injEq] at he
        subst he
        unfold intersectCurveLineXyy at hi2
        simp only at hi2
        split_ifs at hi2
        simp only [Except.error.injEq] at hi2
        exact hi2.symm

theorem getProtoColor_total (pow : α → α → α) (sqrt : α → α) [FloorRing α] (rgb : Rgb α) :
    (rgb.InRange →
      (∃ out, getProtoColor pow sqrt rgb = .ok out) ∨
        getProtoColor pow sqrt rgb = .error .negativeDiscriminant) ∧
    (¬ rgb.InRange →
      getProtoColor pow sqrt rgb = .error .gammaBelowZero ∨
        getProtoColor pow sqrt rgb = .error .gammaAboveOne) := by
  constructor
  · intro hr
    obtain ⟨xyz, hx⟩ := (rgbToXyz_isOk_iff pow rgb).2 hr
    unfold getProtoColor
    rw [hx]
    simp only
    cases hi : intersectCurveLineXyy sqrt xyyVisionCurve
        (xyyLine xyyConfusionPoint (xyzToXyy xyz)) (getProtanLuminance xyz) with
    | ok p => exact Or.inl ⟨_, rfl⟩
    | error e =>
      right
      unfold intersectCurveLineXyy at hi
      simp only at hi
      split_ifs at hi
      simp only [Except.error.injEq] at hi
      rw [← hi]
  · intro hr
    cases hx : rgbToXyz pow rgb with
    | ok xyz => exact absurd ((rgbToXyz_isOk_iff pow rgb).1 ⟨xyz, hx⟩) hr
    | error e =>
      unfold getProtoColor
      rw [hx]
      simp only
      rcases (rgbToXyz_error pow rgb e hx).1 with h | h
      · left; rw [h]
      · right; rw [h]

end Generic

/-! ## Lines, the vision curve and the discriminant (any field) -/

section Geometry

variable {α : Type} [LinearOrderedField α]

theorem xyyLine_of_not_gt (p0 p1 : Xyy α) (h : ¬ p0.x > p1.x) :
    xyyLine p0 p1 =
      ⟨(p1.y - p0.y) / (p1.x - p0.x), p0.y - (p1.y - p0.y) / (p1.x - p0.x) * p0.x⟩ := by
  rw [xyyLine]
  simp [h]

theorem xyyLine_of_gt (p0 p1 : Xyy α) (h : p0.x > p1.x) :
    xyyLine p0 p1 =
      ⟨(p0.y - p1.y) / (p0.x - p1.x), p1.y - (p0.y - p1.y) / (p0.x - p1.x) * p1.x⟩ := by
  rw [xyyLine]
  simp only [h, if_true]
  exact xyyLine_of_not_gt p1 p0 (not_lt_of_gt h)

theorem xyyVisionCurve_eq :
    (xyyVisionCurve : QuadraticPolynomial α) =
      ⟨-59780900000 / 149386942647, 230815090193 / 149386942647,
        -3977756802277 / 31122279718125⟩ := by
  unfold xyyVisionCurve lagrangeInterpolateXyy lagrangeStepXyy XYY_470 XYY_575 XYY_WHITE_D50
  norm_num

theorem blueGreenLine_eq :
    (xyyLine XYY_BLUE_PRIMARY XYY_GREEN_PRIMARY : Line α) =
      ⟨53183235552995597 / 16525921424482928,
        -359948803775885858973218522341749 / 826296071224146400000000000000000⟩ := by
  rw [xyyLine_of_not_gt _ _ (by unfold XYY_BLUE_PRIMARY XYY_GREEN_PRIMARY; norm_num)]
  unfold XYY_BLUE_PRIMARY XYY_GREEN_PRIMARY
  norm_num

theorem greenRedLine_eq :
    (xyyLine XYY_GREEN_PRIMARY XYY_RED_PRIMARY : Line α) =
      ⟨-26701704455640515 / 32728503421689886,
        281425371370262300903288326019823 / 327285034216898860000000000000000⟩ := by
  rw [xyyLine_of_not_gt _ _ (by unfold XYY_GREEN_PRIMARY XYY_RED_PRIMARY; norm_num)]
  unfold XYY_GREEN_PRIMARY XYY_RED_PRIMARY
  norm_num

/-- The line through the confusion point and a point to its left. -/
theorem confusionLine_eq (p : Xyy α) (h : p.x < 0.747) :
    xyyLine xyyConfusionPoint p =
      ⟨(0.253 - p.y) / (0.747 - p.x), p.y - (0.253 - p.y) / (0.747 - p.x) * p.x⟩ := by
  rw [xyyLine_of_gt _ _ (by simpa [xyyConfusionPoint] using h)]
  simp [xyyConfusionPoint]

theorem discriminant_nonneg_of_point (poly : QuadraticPolynomial α) (line : Line α) (t : α)
    (hA : poly.xSquare ≤ 0)
    (hq : line.m * t + line.b ≤ poly.xSquare * t ^ 2 + poly.x * t + poly.c) :
    0 ≤ discriminant poly line := by
  unfold discriminant
  simp only
  have h1 : 0 ≤ (2 * poly.xSquare * t + (poly.x - line.m)) ^ 2 := sq_nonneg _
  have h2 : 0 ≤ (-poly.xSquare) *
      (poly.xSquare * t ^ 2 + poly.x * t + poly.c - (line.m * t + line.b)) :=
    mul_nonneg (by linarith) (by linarith)
  norm_num
  nlinarith [h1, h2]

theorem intersectCurveLineXyy_of_nonneg (sqrt : α → α) (poly : QuadraticPolynomial α)
    (line : Line α) (Y : α) (h : 0 ≤ discriminant poly line) :
    intersectCurveLineXyy sqrt poly line Y =
      .ok ⟨(-(poly.x - line.m) + sqrt (discriminant poly line)) / (2.0 * poly.xSquare),
        line.m * ((-(poly.x - line.m) + sqrt (discriminant poly line)) / (2.0 * poly.xSquare))
          + line.b, Y⟩ := by
  unfold discriminant at h
  simp only at h
  unfold intersectCurveLineXyy discriminant
  simp [h]

theorem intersectCurveLineXyy_of_neg (sqrt : α → α) (poly : QuadraticPolynomial α)
    (line : Line α) (Y : α) (h : discriminant poly line < 0) :
    intersectCurveLineXyy sqrt poly line Y = .error .negativeDiscriminant := by
  unfold discriminant at h
  simp only at h
  unfold intersectCurveLineXyy
  simp only
  rw [if_pos (not_le.mpr h)]

end Geometry

/-! ## The pipeline over the reals: inputs in range -/

theorem srgbToLinearGamma_nonneg (v y : ℝ) (h : srgbToLinearGamma Real.rpow v = .ok y) :
    0 ≤ y := by
  unfold srgbToLinearGamma at h
  by_cases h0 : 0 ≤ v
  · by_cases h1 : v ≤ 1
    · by_cases h2 : v < 0.04045
      · simp [h0, h1, h2] at h
        rw [← h]
        positivity
      · simp [h0, h1, h2] at h
        rw [← h]
        apply Real.rpow_nonneg
        have : (0:ℝ) ≤ v + 0.055 := by linarith
        positivity
    · simp [h0, h1] at h
  · simp [h0] at h

/-- The shape of `rgbToXyz` on an input in range: three non-negative linear
intensities, then the matrix. -/
theorem rgbToXyz_of_inRange (rgb : Rgb ℝ) (h : rgb.InRange) :
    ∃ r g b : ℝ, 0 ≤ r ∧ 0 ≤ g ∧ 0 ≤ b ∧
      srgbToLinearGamma Real.rpow (rgb.r / 255) = .ok r ∧
      srgbToLinearGamma Real.rpow (rgb.g / 255) = .ok g ∧
      srgbToLinearGamma Real.rpow (rgb.b / 255) = .ok b ∧
      rgbToXyz Real.rpow rgb = .ok
        ⟨r * 0.4360747 + g * 0.3850649 + b * 0.1430804,
         r * 0.2225045 + g * 0.7168786 + b * 0.0606169,
         r * 0.0139322 + g * 0.0971045 + b * 0.7141733⟩ := by
  obtain ⟨hr, hg, hb⟩ := h
  obtain ⟨r, hr'⟩ := (srgbToLinearGamma_isOk_iff Real.rpow _).2 ((div_255_mem_iff rgb.r).2 hr)
  obtain ⟨g, hg'⟩ := (srgbToLinearGamma_isOk_iff Real.rpow _).2 ((div_255_mem_iff rgb.g).2 hg)
  obtain ⟨b, hb'⟩ := (srgbToLinearGamma_isOk_iff Real.rpow _).2 ((div_255_mem_iff rgb.b).2 hb)
  refine ⟨r, g, b, srgbToLinearGamma_nonneg _ _ hr', srgbToLinearGamma_nonneg _ _ hg',
    srgbToLinearGamma_nonneg _ _ hb', hr', hg', hb', ?_⟩
  unfold rgbToXyz
  rw [hr', hg', hb']

/-- The chromaticity of a non-negative combination of the primaries lies to
the left of the confusion point. -/
theorem xyzToXyy_x_lt (r g b : ℝ) (hr : 0 ≤ r) (hg : 0 ≤ g) (hb : 0 ≤ b) :
    (xyzToXyy (⟨r * 0.4360747 + g * 0.3850649 + b * 0.1430804,
         r * 0.2225045 + g * 0.7168786 + b * 0.0606169,
         r * 0.0139322 + g * 0.0971045 + b * 0.7141733⟩ : Xyz ℝ)).x < 0.747 := by
  unfold xyzToXyy
  simp only
  split_ifs with hs
  · simp only
    have hpos : 0 < r * 0.4360747 + g * 0.3850649 + b * 0.1430804 +
        (r * 0.2225045 + g * 0.7168786 + b * 0.0606169) +
        (r * 0.0139322 + g * 0.0971045 + b * 0.7141733) := by
      apply lt_of_le_of_ne _ (Ne.symm hs)
      positivity
    rw [div_lt_iff₀ hpos]
    nlinarith
  · simp only [XYY_WHITE_D50]
    norm_num

theorem visionCurve_above_confusionPoint :
    (0.253 : ℝ) ≤ (xyyVisionCurve : QuadraticPolynomial ℝ).xSquare * (0.747 : ℝ) ^ 2 +
      (xyyVisionCurve : QuadraticPolynomial ℝ).x * 0.747 +
      (xyyVisionCurve : QuadraticPolynomial ℝ).c := by
  rw [xyyVisionCurve_eq]
  norm_num

theorem confusionLine_at_confusionPoint (p : Xyy ℝ) (h : p.x < 0.747) :
    (xyyLine xyyConfusionPoint p).m * 0.747 + (xyyLine xyyConfusionPoint p).b = 0.253 := by
  rw [confusionLine_eq p h]
  simp only
  have h2 : (0.747 : ℝ) - p.x ≠ 0 := by linarith
  field_simp
  ring

theorem discriminant_confusionLine_nonneg (p : Xyy ℝ) (h : p.x < 0.747) :
    0 ≤ discriminant xyyVisionCurve (xyyLine xyyConfusionPoint p) := by
  apply discriminant_nonneg_of_point _ _ 0.747
  · rw [xyyVisionCurve_eq]; norm_num
  · rw [confusionLine_at_confusionPoint p h]
    exact visionCurve_above_confusionPoint

/-- On an input in range no assertion of `getProtoColor` fails. -/
theorem getProtoColor_isOk_of_inRange (rgb : Rgb ℝ) (h : rgb.InRange) :
    ∃ out, getProtoColor Real.rpow Real.sqrt rgb = .ok out := by
  obtain ⟨r, g, b, hr, hg, hb, -, -, -, hx⟩ := rgbToXyz_of_inRange rgb h
  have hd := discriminant_confusionLine_nonneg _ (xyzToXyy_x_lt r g b hr hg hb)
  unfold getProtoColor
  rw [hx]
  simp only
  rw [intersectCurveLineXyy_of_nonneg _ _ _ _ hd]
  exact ⟨_, rfl⟩

/-- Claim C4 (no missing intersection inside the gamut): for every `Rgb` with all
channels in `[0, 255]`, `rgbToXyz` succeeds and the discriminant `B*B - 4*A*C` that
`intersectCurveLineXyy` computes for the vision curve and the confusion line
through the input's chromaticity is non-negative, so `intersectCurveLineXyy`
returns a point and `getProtoColor` returns a colour: the assertion
`discriminant >= 0` never fails. -/
theorem discriminant_nonneg_in_gamut (rgb : Rgb ℝ) (h : rgb.InRange) :
    ∃ xyz, rgbToXyz Real.rpow rgb = .ok xyz ∧
      0 ≤ discriminant xyyVisionCurve (xyyLine xyyConfusionPoint (xyzToXyy xyz)) ∧
      (∃ p, intersectCurveLineXyy Real.sqrt xyyVisionCurve
        (xyyLine xyyConfusionPoint (xyzToXyy xyz)) (getProtanLuminance xyz) = .ok p) ∧
      ∃ out, getProtoColor Real.rpow Real.sqrt rgb = .ok out := by
  obtain ⟨r, g, b, hr, hg, hb, -, -, -, hx⟩ := rgbToXyz_of_inRange rgb h
  refine ⟨_, hx, ?_⟩
  have hd := discriminant_confusionLine_nonneg _ (xyzToXyy_x_lt r g b hr hg hb)
  exact ⟨hd, ⟨_, intersectCurveLineXyy_of_nonneg _ _ _ _ hd⟩,
    getProtoColor_isOk_of_inRange rgb h⟩

/-- Claim C4 at pure red, `Rgb(255, 0, 0)`. -/
theorem discriminant_nonneg_in_gamut_witness :
    Rgb.InRange (⟨255, 0, 0⟩ : Rgb ℝ) ∧
    ∃ xyz, rgbToXyz Real.rpow (⟨255, 0, 0⟩ : Rgb ℝ) = .ok xyz ∧
      0 ≤ discriminant xyyVisionCurve (xyyLine xyyConfusionPoint (xyzToXyy xyz)) ∧
      (∃ p, intersectCurveLineXyy Real.sqrt xyyVisionCurve
        (xyyLine xyyConfusionPoint (xyzToXyy xyz)) (getProtanLuminance xyz) = .ok p) ∧
      ∃ out, getProtoColor Real.rpow Real.sqrt (⟨255, 0, 0⟩ : Rgb ℝ) = .ok out :=
  ⟨by norm_num [Rgb.InRange],
    discriminant_nonneg_in_gamut ⟨255, 0, 0⟩ (by norm_num [Rgb.InRange])⟩

/-! ## The gamma curves over the reals -/

theorem rpow_twelve_fifths_pow (x : ℝ) (hx : 0 ≤ x) : (x ^ (12 / 5 : ℝ)) ^ 5 = x ^ 12 := by
  rw [← Real.rpow_natCast, ← Real.rpow_mul hx]
  norm_num
  exact_mod_cast Real.rpow_natCast x 12

theorem rpow_five_twelfths_pow (x : ℝ) (hx : 0 ≤ x) : (x ^ (5 / 12 : ℝ)) ^ 12 = x ^ 5 := by
  rw [← Real.rpow_natCast, ← Real.rpow_mul hx]
  norm_num
  exact_mod_cast Real.rpow_natCast x 5

theorem rpow_twelve_fifths_five_twelfths (x : ℝ) (hx : 0 ≤ x) :
    (x ^ (12 / 5 : ℝ)) ^ (5 / 12 : ℝ) = x := by
  rw [← Real.rpow_mul hx]
  norm_num

theorem rpow_five_twelfths_twelve_fifths (x : ℝ) (hx : 0 ≤ x) :
    (x ^ (5 / 12 : ℝ)) ^ (12 / 5 : ℝ) = x := by
  rw [← Real.rpow_mul hx]
  norm_num

theorem le_rpow_twelve_fifths_iff (c x : ℝ) (hc : 0 ≤ c) (hx : 0 ≤ x) :
    c ≤ x ^ (12 / 5 : ℝ) ↔ c ^ 5 ≤ x ^ 12 := by
  rw [← rpow_twelve_fifths_pow x hx]
  exact (pow_le_pow_iff_left₀ hc (Real.rpow_nonneg hx _) (by norm_num)).symm

theorem rpow_twelve_fifths_le_iff (c x : ℝ) (hc : 0 ≤ c) (hx : 0 ≤ x) :
    x ^ (12 / 5 : ℝ) ≤ c ↔ x ^ 12 ≤ c ^ 5 := by
  rw [← rpow_twelve_fifths_pow x hx]
  exact (pow_le_pow_iff_left₀ (Real.rpow_nonneg hx _) hc (by norm_num)).symm

theorem le_rpow_five_twelfths_iff (c x : ℝ) (hc : 0 ≤ c) (hx : 0 ≤ x) :
    c ≤ x ^ (5 / 12 : ℝ) ↔ c ^ 12 ≤ x ^ 5 := by
  rw [← rpow_five_twelfths_pow x hx]
  exact (pow_le_pow_iff_left₀ hc (Real.rpow_nonneg hx _) (by norm_num)).symm

theorem rpow_five_twelfths_le_iff (c x : ℝ) (hc : 0 ≤ c) (hx : 0 ≤ x) :
    x ^ (5 / 12 : ℝ) ≤ c ↔ x ^ 5 ≤ c ^ 12 := by
  rw [← rpow_five_twelfths_pow x hx]
  exact (pow_le_pow_iff_left₀ (Real.rpow_nonneg hx _) hc (by norm_num)).symm

theorem srgbToLinearGamma_of_lt (v : ℝ) (h0 : 0 ≤ v) (h : v < 0.04045) :
    srgbToLinearGamma Real.rpow v = .ok (v / 12.92) := by
  unfold srgbToLinearGamma
  have h1 : v ≤ 1 := by linarith
  simp [h0, h1, h]

theorem srgbToLinearGamma_of_ge (v : ℝ) (h : 0.04045 ≤ v) (h1 : v ≤ 1) :
    srgbToLinearGamma Real.rpow v = .ok (((v + 0.055) / 1.055) ^ (12 / 5 : ℝ)) := by
  unfold srgbToLinearGamma
  have h0 : 0 ≤ v := by linarith
  have h2 : ¬ v < 0.04045 := not_lt.mpr h
  simp only [ge_iff_le, h0, h1, h2, not_true_eq_false, if_false, Real.rpow_eq_pow]
  norm_num

theorem linearToSrgbGamma_of_le (v : ℝ) (h : v ≤ 0.0031308) :
    linearToSrgbGamma Real.rpow v = v * 12.92 := by
  unfold linearToSrgbGamma
  simp [h]

theorem linearToSrgbGamma_of_gt (v : ℝ) (h : 0.0031308 < v) :
    linearToSrgbGamma Real.rpow v = 1.055 * v ^ (5 / 12 : ℝ) - 0.055 := by
  unfold linearToSrgbGamma
  have h2 : ¬ v ≤ 0.0031308 := not_le.mpr h
  simp only [h2, if_false, Real.rpow_eq_pow]
  norm_num

/-- The power branch of `srgbToLinearGamma` starts above the threshold of
`linearToSrgbGamma`, and above the end of the linear branch. -/
theorem gamma_threshold_image (v : ℝ) (h : 0.04045 ≤ v) :
    (0.00313080728 : ℝ) ≤ ((v + 0.055) / 1.055) ^ (12 / 5 : ℝ) := by
  have hb : (0 : ℝ) ≤ (0.04045 + 0.055) / 1.055 := by norm_num
  have h1 : (0.00313080728 : ℝ) ≤ ((0.04045 + 0.055) / 1.055) ^ (12 / 5 : ℝ) := by
    rw [le_rpow_twelve_fifths_iff _ _ (by norm_num) hb]
    norm_num
  refine le_trans h1 (Real.rpow_le_rpow hb ?_ (by norm_num))
  have : (0.04045 + 0.055 : ℝ) ≤ v + 0.055 := by linarith
  exact div_le_div_of_nonneg_right this (by norm_num)

theorem srgbToLinearGamma_strictMono (u v : ℝ) (hu : 0 ≤ u) (huv : u < v) (hv : v ≤ 1) :
    ∃ a b, srgbToLinearGamma Real.rpow u = .ok a ∧ srgbToLinearGamma Real.rpow v = .ok b ∧
      a < b := by
  by_cases h1 : v < 0.04045
  · refine ⟨_, _, srgbToLinearGamma_of_lt u hu (by linarith),
      srgbToLinearGamma_of_lt v (by linarith) h1, ?_⟩
    exact div_lt_div_of_pos_right huv (by norm_num)
  · have h1' : (0.04045 : ℝ) ≤ v := not_lt.mp h1
    by_cases h2 : u < 0.04045
    · refine ⟨_, _, srgbToLinearGamma_of_lt u hu h2, srgbToLinearGamma_of_ge v h1' hv, ?_⟩
      have := gamma_threshold_image v h1'
      have h3 : u / 12.92 < 0.04045 / 12.92 := div_lt_div_of_pos_right h2 (by norm_num)
      have h4 : (0.04045 / 12.92 : ℝ) ≤ 0.00313080728 := by norm_num
      linarith
    · have h2' : (0.04045 : ℝ) ≤ u := not_lt.mp h2
      refine ⟨_, _, srgbToLinearGamma_of_ge u h2' (by linarith),
        srgbToLinearGamma_of_ge v h1' hv, ?_⟩
      apply Real.rpow_lt_rpow
      · have : (0 : ℝ) ≤ u + 0.055 := by linarith
        positivity
      · have : u + 0.055 < v + 0.055 := by linarith
        exact div_lt_div_of_pos_right this (by norm_num)
      · norm_num

theorem linearToSrgbGamma_strictMono_branch (u v : ℝ) (huv : u < v)
    (h : v ≤ 0.0031308 ∨ 0.0031308 < u ∨ 0.00313081 ≤ v) :
    linearToSrgbGamma Real.rpow u < linearToSrgbGamma Real.rpow v := by
  by_cases hv : v ≤ 0.0031308
  · rw [linearToSrgbGamma_of_le u (by linarith), linearToSrgbGamma_of_le v hv]
    linarith
  · have hv' : (0.0031308 : ℝ) < v := not_le.mp hv
    rw [linearToSrgbGamma_of_gt v hv']
    by_cases hu : u ≤ 0.0031308
    · rw [linearToSrgbGamma_of_le u hu]
      have hv2 : (0.00313081 : ℝ) ≤ v := by
        rcases h with h | h | h
        · exact absurd h hv
        · exact absurd hu (not_le.mpr h)
        · exact h
      have h3 : (0.0904739 : ℝ) ≤ (0.00313081 : ℝ) ^ (5 / 12 : ℝ) := by
        rw [le_rpow_five_twelfths_iff _ _ (by norm_num) (by norm_num)]
        norm_num
      have h4 : (0.00313081 : ℝ) ^ (5 / 12 : ℝ) ≤ v ^ (5 / 12 : ℝ) :=
        Real.rpow_le_rpow (by norm_num) hv2 (by norm_num)
      nlinarith
    · have hu' : (0.0031308 : ℝ) < u := not_le.mp hu
      rw [linearToSrgbGamma_of_gt u hu']
      have : u ^ (5 / 12 : ℝ) < v ^ (5 / 12 : ℝ) :=
        Real.rpow_lt_rpow (by linarith) huv (by norm_num)
      linarith

/-- Claim C9 fails for `linearToSrgbGamma` across its threshold: `0.0031308` and
`0.003130801` both lie in `[0, 1]` and are in increasing order, but the value at
the larger one (power branch) is below the value at the smaller one (linear
branch). -/
theorem linearToSrgbGamma_not_monotone :
    (0 : ℝ) ≤ 0.0031308 ∧ (0.0031308 : ℝ) < 0.003130801 ∧ (0.003130801 : ℝ) ≤ 1 ∧
    linearToSrgbGamma Real.rpow 0.003130801 < linearToSrgbGamma Real.rpow 0.0031308 := by
  refine ⟨by norm_num, by norm_num, by norm_num, ?_⟩
  rw [linearToSrgbGamma_of_le _ (le_refl _), linearToSrgbGamma_of_gt _ (by norm_num)]
  have h3 : (0.003130801 : ℝ) ^ (5 / 12 : ℝ) ≤ 0.09047387 := by
    rw [rpow_five_twelfths_le_iff _ _ (by norm_num) (by norm_num)]
    norm_num
  norm_num
  linarith

/-- Claim C9 as amended (gamma monotonicity): for `u < v` in `[0, 1]`,
`srgbToLinearGamma u < srgbToLinearGamma v`, also when `u` and `v` straddle the
threshold `0.04045`; and `linearToSrgbGamma u < linearToSrgbGamma v` when `u` and
`v` lie on the same branch (both at most `0.0031308`, or both above it) or when
`v` is at least `0.00313081`. -/
theorem gamma_strictMono_amended (u v : ℝ) (hu : 0 ≤ u) (huv : u < v) (hv : v ≤ 1) :
    (∃ a b, srgbToLinearGamma Real.rpow u = .ok a ∧ srgbToLinearGamma Real.rpow v = .ok b ∧
      a < b) ∧
    (v ≤ 0.0031308 ∨ 0.0031308 < u ∨ 0.00313081 ≤ v →
      linearToSrgbGamma Real.rpow u < linearToSrgbGamma Real.rpow v) :=
  ⟨srgbToLinearGamma_strictMono u v hu huv hv, linearToSrgbGamma_strictMono_branch u v huv⟩

/-- Claim C9 as amended, at the pair `0.04 < 0.05` that straddles the threshold of
`srgbToLinearGamma`. -/
theorem gamma_strictMono_amended_witness :
    ((0 : ℝ) ≤ 0.04 ∧ (0.04 : ℝ) < 0.05 ∧ (0.05 : ℝ) ≤ 1) ∧
    (∃ a b, srgbToLinearGamma Real.rpow 0.04 = .ok a ∧
      srgbToLinearGamma Real.rpow 0.05 = .ok b ∧ a < b) ∧
    ((0.05 : ℝ) ≤ 0.0031308 ∨ (0.0031308 : ℝ) < 0.04 ∨ (0.00313081 : ℝ) ≤ 0.05 →
      linearToSrgbGamma Real.rpow 0.04 < linearToSrgbGamma Real.rpow 0.05) :=
  ⟨⟨by norm_num, by norm_num, by norm_num⟩,
    gamma_strictMono_amended 0.04 0.05 (by norm_num) (by norm_num) (by norm_num)⟩

theorem rpow_five_twelfths_threshold_lower :
    (0.0904738 : ℝ) ≤ (0.0031308 : ℝ) ^ (5 / 12 : ℝ) := by
  rw [le_rpow_five_twelfths_iff _ _ (by norm_num) (by norm_num)]
  norm_num

theorem rpow_five_twelfths_threshold_upper :
    (0.00313081 : ℝ) ^ (5 / 12 : ℝ) ≤ 0.090474 := by
  rw [rpow_five_twelfths_le_iff _ _ (by norm_num) (by norm_num)]
  norm_num

theorem rpow_five_twelfths_threshold_lower2 :
    (0.090475 : ℝ) ≤ (0.0031309 : ℝ) ^ (5 / 12 : ℝ) := by
  rw [le_rpow_five_twelfths_iff _ _ (by norm_num) (by norm_num)]
  norm_num

theorem linearToSrgbGamma_srgbToLinearGamma (v : ℝ) (h0 : 0 ≤ v) (h1 : v ≤ 1) :
    ∃ y, srgbToLinearGamma Real.rpow v = .ok y ∧
      |linearToSrgbGamma Real.rpow y - v| ≤ 0.000001 := by
  by_cases h : v < 0.04045
  · refine ⟨_, srgbToLinearGamma_of_lt v h0 h, ?_⟩
    by_cases hy : v / 12.92 ≤ 0.0031308
    · rw [linearToSrgbGamma_of_le _ hy]
      have : v / 12.92 * 12.92 - v = 0 := by ring
      rw [this]
      norm_num
    · have hy' : (0.0031308 : ℝ) < v / 12.92 := not_le.mp hy
      rw [linearToSrgbGamma_of_gt _ hy']
      have hy2 : v / 12.92 ≤ 0.00313081 := by
        rw [div_le_iff₀ (by norm_num)]
        linarith
      have hv2 : (0.0404499 : ℝ) ≤ v := by
        rw [lt_div_iff₀ (by norm_num)] at hy'
        linarith
      have hlo : (0.0031308 : ℝ) ^ (5 / 12 : ℝ) ≤ (v / 12.92) ^ (5 / 12 : ℝ) :=
        Real.rpow_le_rpow (by norm_num) hy'.le (by norm_num)
      have hhi : (v / 12.92) ^ (5 / 12 : ℝ) ≤ (0.00313081 : ℝ) ^ (5 / 12 : ℝ) :=
        Real.rpow_le_rpow (by positivity) hy2 (by norm_num)
      have := rpow_five_twelfths_threshold_lower
      have := rpow_five_twelfths_threshold_upper
      rw [abs_le]
      constructor <;> linarith
  · have h' : (0.04045 : ℝ) ≤ v := not_lt.mp h
    refine ⟨_, srgbToLinearGamma_of_ge v h' h1, ?_⟩
    have hy := gamma_threshold_image v h'
    rw [linearToSrgbGamma_of_gt _ (by linarith),
      rpow_twelve_fifths_five_twelfths _ (by positivity)]
    have : 1.055 * ((v + 0.055) / 1.055) - 0.055 - v = 0 := by ring
    rw [this]
    norm_num

theorem srgbToLinearGamma_linearToSrgbGamma (v : ℝ) (h0 : 0 ≤ v) (h1 : v ≤ 1) :
    ∃ y, srgbToLinearGamma Real.rpow (linearToSrgbGamma Real.rpow v) = .ok y ∧
      |y - v| ≤ 0.000001 := by
  by_cases h : v ≤ 0.0031308
  · rw [linearToSrgbGamma_of_le _ h]
    refine ⟨_, srgbToLinearGamma_of_lt _ (by positivity) (by linarith), ?_⟩
    have : v * 12.92 / 12.92 - v = 0 := by ring
    rw [this]
    norm_num
  · have h' : (0.0031308 : ℝ) < v := not_le.mp h
    rw [linearToSrgbGamma_of_gt _ h']
    have hlo : (0.0031308 : ℝ) ^ (5 / 12 : ℝ) ≤ v ^ (5 / 12 : ℝ) :=
      Real.rpow_le_rpow (by norm_num) h'.le (by norm_num)
    have hlo2 := rpow_five_twelfths_threshold_lower
    have hle1 : v ^ (5 / 12 : ℝ) ≤ 1 := Real.rpow_le_one h0 h1 (by norm_num)
    by_cases hs : 1.055 * v ^ (5 / 12 : ℝ) - 0.055 < 0.04045
    · refine ⟨_, srgbToLinearGamma_of_lt _ (by linarith) hs, ?_⟩
      have hv2 : v < 0.0031309 := by
        by_contra hc
        have hc' : (0.0031309 : ℝ) ≤ v := not_lt.mp hc
        have h5 : (0.0031309 : ℝ) ^ (5 / 12 : ℝ) ≤ v ^ (5 / 12 : ℝ) :=
          Real.rpow_le_rpow (by norm_num) hc' (by norm_num)
        have := rpow_five_twelfths_threshold_lower2
        linarith
      rw [abs_le]
      constructor
      · rw [le_sub_iff_add_le, le_div_iff₀ (by norm_num)]
        linarith
      · rw [sub_le_iff_le_add, div_le_iff₀ (by norm_num)]
        linarith
    · have hs' : (0.04045 : ℝ) ≤ 1.055 * v ^ (5 / 12 : ℝ) - 0.055 := not_lt.mp hs
      refine ⟨_, srgbToLinearGamma_of_ge _ hs' (by linarith), ?_⟩
      have : (1.055 * v ^ (5 / 12 : ℝ) - 0.055 + 0.055) / 1.055 = v ^ (5 / 12 : ℝ) := by
        field_simp
      rw [this, rpow_five_twelfths_twelve_fifths _ h0]
      norm_num

/-- Claim C8 (the gamma curves are mutual inverses on `[0, 1]` within `1e-6`): for
every `v` with `0 ≤ v ≤ 1`, `srgbToLinearGamma v` succeeds with
`|linearToSrgbGamma (srgbToLinearGamma v) - v| ≤ 1e-6`, and
`srgbToLinearGamma (linearToSrgbGamma v)` succeeds with a value within `1e-6` of
`v`; this covers the inputs next to the thresholds `0.04045` and `0.0031308`. -/
theorem gamma_mutual_inverse (v : ℝ) (h0 : 0 ≤ v) (h1 : v ≤ 1) :
    (∃ y, srgbToLinearGamma Real.rpow v = .ok y ∧
      |linearToSrgbGamma Real.rpow y - v| ≤ 0.000001) ∧
    (∃ y, srgbToLinearGamma Real.rpow (linearToSrgbGamma Real.rpow v) = .ok y ∧
      |y - v| ≤ 0.000001) :=
  ⟨linearToSrgbGamma_srgbToLinearGamma v h0 h1, srgbToLinearGamma_linearToSrgbGamma v h0 h1⟩

/-- Claim C8 at the threshold `0.0031308` of `linearToSrgbGamma`. -/
theorem gamma_mutual_inverse_witness :
    ((0 : ℝ) ≤ 0.0031308 ∧ (0.0031308 : ℝ) ≤ 1) ∧
    (∃ y, srgbToLinearGamma Real.rpow 0.0031308 = .ok y ∧
      |linearToSrgbGamma Real.rpow y - 0.0031308| ≤ 0.000001) ∧
    (∃ y, srgbToLinearGamma Real.rpow (linearToSrgbGamma Real.rpow 0.0031308) = .ok y ∧
      |y - 0.0031308| ≤ 0.000001) :=
  ⟨⟨by norm_num, by norm_num⟩, gamma_mutual_inverse 0.0031308 (by norm_num) (by norm_num)⟩

/-! ## Round trips -/

theorem xyyToXyz_xyzToXyy {α : Type} [LinearOrderedField α] (v : Xyz α)
    (hs : v.x + v.y + v.z ≠ 0) (hy : v.y ≠ 0) :
    xyyToXyz (xyzToXyy v) = v := by
  unfold xyzToXyy xyyToXyz
  simp only [hs, ne_eq, not_false_eq_true, if_true]
  have h2 : v.y / (v.x + v.y + v.z) ≠ 0 := div_ne_zero hy hs
  simp only [h2, not_false_eq_true, if_true]
  cases v with
  | mk x y z =>
    simp only at hs hy h2 ⊢
    congr 1
    · field_simp
    · field_simp
      ring

theorem srgbToLinearGamma_le_one (v y : ℝ) (h : srgbToLinearGamma Real.rpow v = .ok y) :
    y ≤ 1 := by
  have hv := (srgbToLinearGamma_isOk_iff Real.rpow v).1 ⟨y, h⟩
  by_cases h2 : v < 0.04045
  · rw [srgbToLinearGamma_of_lt v hv.1 h2] at h
    simp only [Except.ok.injEq] at h
    rw [← h, div_le_iff₀ (by norm_num)]
    linarith
  · rw [srgbToLinearGamma_of_ge v (not_lt.mp h2) hv.2] at h
    simp only [Except.ok.injEq] at h
    rw [← h]
    apply Real.rpow_le_one
    · have : (0:ℝ) ≤ v + 0.055 := by linarith
      positivity
    · rw [div_le_iff₀ (by norm_num)]
      linarith [hv.2]
    · norm_num

/-- On `[0.0031308, ∞)` the map `x ↦ x ^ (5/12)` lies below `30 * x`. -/
theorem rpow_five_twelfths_le_mul (b : ℝ) (hb : 0.0031308 ≤ b) :
    b ^ (5 / 12 : ℝ) ≤ 30 * b := by
  have hb0 : 0 ≤ b := by linarith
  rw [rpow_five_twelfths_le_iff _ _ (by positivity) hb0]
  have h7 : (0.0031308 : ℝ) ^ 7 ≤ b ^ 7 := pow_le_pow_left₀ (by norm_num) hb 7
  have h1 : (1 : ℝ) ≤ 30 ^ 12 * b ^ 7 := by
    have : (1 : ℝ) ≤ 30 ^ 12 * (0.0031308 : ℝ) ^ 7 := by norm_num
    nlinarith
  have h5 : 0 ≤ b ^ 5 := by positivity
  calc b ^ 5 = b ^ 5 * 1 := by ring
    _ ≤ b ^ 5 * (30 ^ 12 * b ^ 7) := mul_le_mul_of_nonneg_left h1 h5
    _ = (30 * b) ^ 12 := by ring

/-- A Lipschitz bound for `x ↦ x ^ (5/12)` on `[0.0031308, ∞)`. -/
theorem rpow_five_twelfths_sub_le (a b : ℝ) (hb : 0.0031308 ≤ b) (hab : b ≤ a) :
    a ^ (5 / 12 : ℝ) - b ^ (5 / 12 : ℝ) ≤ 30 * (a - b) := by
  have hb0 : 0 < b := by linarith
  have ha0 : 0 ≤ a := by linarith
  have hq : 1 ≤ a / b := by rwa [le_div_iff₀ hb0, one_mul]
  have h1 : (a / b) ^ (5 / 12 : ℝ) ≤ a / b := by
    have := Real.rpow_le_rpow_of_exponent_le hq (show (5 / 12 : ℝ) ≤ 1 by norm_num)
    rwa [Real.rpow_one] at this
  have h2 : a ^ (5 / 12 : ℝ) = (a / b) ^ (5 / 12 : ℝ) * b ^ (5 / 12 : ℝ) := by
    rw [Real.div_rpow ha0 hb0.le]
    have : b ^ (5 / 12 : ℝ) ≠ 0 := (Real.rpow_pos_of_pos hb0 _).ne'
    field_simp
  have hbp : 0 ≤ b ^ (5 / 12 : ℝ) := Real.rpow_nonneg hb0.le _
  have h3 := rpow_five_twelfths_le_mul b hb
  have h4 : (a / b - 1) * b ^ (5 / 12 : ℝ) ≤ (a / b - 1) * (30 * b) :=
    mul_le_mul_of_nonneg_left h3 (by linarith)
  have h5 : (a / b - 1) * (30 * b) = 30 * (a - b) := by
    field_simp
    ring
  have h6 : (a / b) ^ (5 / 12 : ℝ) * b ^ (5 / 12 : ℝ) ≤ (a / b) * b ^ (5 / 12 : ℝ) :=
    mul_le_mul_of_nonneg_right h1 hbp
  rw [h2]
  linarith

theorem rpow_five_twelfths_abs_sub_le (a b : ℝ) (ha : 0.0031308 ≤ a) (hb : 0.0031308 ≤ b) :
    |a ^ (5 / 12 : ℝ) - b ^ (5 / 12 : ℝ)| ≤ 30 * |a - b| := by
  rcases le_total b a with h | h
  · rw [abs_of_nonneg (sub_nonneg.2 (Real.rpow_le_rpow (by linarith) h (by norm_num))),
      abs_of_nonneg (sub_nonneg.2 h)]
    exact rpow_five_twelfths_sub_le a b hb h
  · rw [abs_sub_comm, abs_sub_comm a b,
      abs_of_nonneg (sub_nonneg.2 (Real.rpow_le_rpow (by linarith) h (by norm_num))),
      abs_of_nonneg (sub_nonneg.2 h)]
    exact rpow_five_twelfths_sub_le b a ha h

theorem rpow_five_twelfths_upper_bound : (0.0031312 : ℝ) ^ (5 / 12 : ℝ) ≤ 0.09048 := by
  rw [rpow_five_twelfths_le_iff _ _ (by norm_num) (by norm_num)]
  norm_num

/-- Going through `srgbToLinearGamma`, a perturbation of at most `3e-7` and
`linearToSrgbGamma` moves an intensity by at most `3.9e-5`. -/
theorem gamma_roundtrip_perturbed (s L x : ℝ) (hL : srgbToLinearGamma Real.rpow s = .ok L)
    (hx : |x - L| ≤ 0.0000003) :
    |linearToSrgbGamma Real.rpow x - s| ≤ 0.000039 := by
  have hs := (srgbToLinearGamma_isOk_iff Real.rpow s).1 ⟨L, hL⟩
  obtain ⟨hx1, hx2⟩ := abs_le.mp hx
  have hlo := rpow_five_twelfths_threshold_lower
  have hhi := rpow_five_twelfths_upper_bound
  by_cases h : s < 0.04045
  · rw [srgbToLinearGamma_of_lt s hs.1 h] at hL
    simp only [Except.ok.injEq] at hL
    have hsL : s = L * 12.92 := by rw [← hL]; ring
    by_cases hxt : x ≤ 0.0031308
    · rw [linearToSrgbGamma_of_le x hxt, abs_le]
      constructor <;> linarith
    · have hxt' : (0.0031308 : ℝ) < x := not_le.mp hxt
      rw [linearToSrgbGamma_of_gt x hxt']
      have h1 : (0.0031308 : ℝ) ^ (5 / 12 : ℝ) ≤ x ^ (5 / 12 : ℝ) :=
        Real.rpow_le_rpow (by norm_num) hxt'.le (by norm_num)
      have h2 : x ^ (5 / 12 : ℝ) ≤ (0.0031312 : ℝ) ^ (5 / 12 : ℝ) :=
        Real.rpow_le_rpow (by linarith) (by linarith) (by norm_num)
      rw [abs_le]
      constructor <;> linarith
  · have h' : (0.04045 : ℝ) ≤ s := not_lt.mp h
    have hLlo := gamma_threshold_image s h'
    rw [srgbToLinearGamma_of_ge s h' hs.2] at hL
    simp only [Except.ok.injEq] at hL
    have hb : (0 : ℝ) ≤ (s + 0.055) / 1.055 := by
      have : (0:ℝ) ≤ s + 0.055 := by linarith
      positivity
    rw [hL] at hLlo
    have hLp : L ^ (5 / 12 : ℝ) = (s + 0.055) / 1.055 := by
      rw [← hL, rpow_twelve_fifths_five_twelfths _ hb]
    have hsL : s = 1.055 * L ^ (5 / 12 : ℝ) - 0.055 := by
      rw [hLp]; field_simp
    by_cases hxt : x ≤ 0.0031308
    · rw [linearToSrgbGamma_of_le x hxt]
      have h2 : L ^ (5 / 12 : ℝ) ≤ (0.0031312 : ℝ) ^ (5 / 12 : ℝ) :=
        Real.rpow_le_rpow (by linarith) (by linarith) (by norm_num)
      have h1 : (0.0031308 : ℝ) ^ (5 / 12 : ℝ) ≤ L ^ (5 / 12 : ℝ) :=
        Real.rpow_le_rpow (by norm_num) (by linarith) (by norm_num)
      rw [abs_le]
      constructor <;> linarith
    · have hxt' : (0.0031308 : ℝ) < x := not_le.mp hxt
      rw [linearToSrgbGamma_of_gt x hxt']
      have hlip := rpow_five_twelfths_abs_sub_le x L hxt'.le (by linarith)
      have h3 : 1.055 * x ^ (5 / 12 : ℝ) - 0.055 - s
          = 1.055 * (x ^ (5 / 12 : ℝ) - L ^ (5 / 12 : ℝ)) := by
        rw [hsL]; ring
      rw [h3, abs_mul, abs_of_pos (show (0:ℝ) < 1.055 by norm_num)]
      nlinarith

/-- The xyY round trip is exact on every XYZ colour that `rgbToXyz` produces. -/
theorem xyyToXyz_xyzToXyy_of_linear (r g b : ℝ) (hr : 0 ≤ r) (hg : 0 ≤ g) (hb : 0 ≤ b) :
    xyyToXyz (xyzToXyy (⟨r * 0.4360747 + g * 0.3850649 + b * 0.1430804,
         r * 0.2225045 + g * 0.7168786 + b * 0.0606169,
         r * 0.0139322 + g * 0.0971045 + b * 0.7141733⟩ : Xyz ℝ)) =
      ⟨r * 0.4360747 + g * 0.3850649 + b * 0.1430804,
         r * 0.2225045 + g * 0.7168786 + b * 0.0606169,
         r * 0.0139322 + g * 0.0971045 + b * 0.7141733⟩ := by
  by_cases hz : r = 0 ∧ g = 0 ∧ b = 0
  · obtain ⟨rfl, rfl, rfl⟩ := hz
    unfold xyzToXyy xyyToXyz XYY_WHITE_D50
    norm_num
  · have hpos : 0 < r + g + b := by
      apply lt_of_le_of_ne (by positivity)
      intro h0
      apply hz
      refine ⟨?_, ?_, ?_⟩ <;> linarith
    apply xyyToXyz_xyzToXyy
    · simp only
      apply ne_of_gt
      nlinarith
    · simp only
      apply ne_of_gt
      nlinarith

theorem channel_roundtrip (c L x : ℝ) (hL : srgbToLinearGamma Real.rpow (c / 255) = .ok L)
    (hx : |x - L| ≤ 0.0000003) :
    |255 * linearToSrgbGamma Real.rpow x - c| ≤ 0.01 := by
  have h := gamma_roundtrip_perturbed (c / 255) L x hL hx
  have h2 : 255 * linearToSrgbGamma Real.rpow x - c
      = 255 * (linearToSrgbGamma Real.rpow x - c / 255) := by ring
  rw [h2, abs_mul, abs_of_pos (show (0:ℝ) < 255 by norm_num)]
  linarith

/-- Claim C1 (RGB round trip): for every `Rgb` whose three channels lie in
`[0, 255]` (in particular every integer triple of the step-5 grid of the test),
`rgbToXyz` succeeds and `xyzToRgb (xyyToXyz (xyzToXyy (rgbToXyz rgb)))` differs
from `rgb` by at most `0.01` on each of the `r`, `g` and `b` channels. -/
theorem rgb_roundtrip (rgb : Rgb ℝ) (h : rgb.InRange) :
    ∃ xyz, rgbToXyz Real.rpow rgb = .ok xyz ∧
      |(xyzToRgb Real.rpow (xyyToXyz (xyzToXyy xyz))).r - rgb.r| ≤ 0.01 ∧
      |(xyzToRgb Real.rpow (xyyToXyz (xyzToXyy xyz))).g - rgb.g| ≤ 0.01 ∧
      |(xyzToRgb Real.rpow (xyyToXyz (xyzToXyy xyz))).b - rgb.b| ≤ 0.01 := by
  obtain ⟨r, g, b, hr, hg, hb, hr', hg', hb', hx⟩ := rgbToXyz_of_inRange rgb h
  have hr1 := srgbToLinearGamma_le_one _ _ hr'
  have hg1 := srgbToLinearGamma_le_one _ _ hg'
  have hb1 := srgbToLinearGamma_le_one _ _ hb'
  refine ⟨_, hx, ?_⟩
  rw [xyyToXyz_xyzToXyy_of_linear r g b hr hg hb]
  unfold xyzToRgb
  simp only
  refine ⟨channel_roundtrip _ _ _ hr' ?_, channel_roundtrip _ _ _ hg' ?_,
    channel_roundtrip _ _ _ hb' ?_⟩
  · rw [abs_le]
    constructor <;> nlinarith
  · rw [abs_le]
    constructor <;> nlinarith
  · rw [abs_le]
    constructor <;> nlinarith

/-- Claim C1 at the grid point `Rgb(5, 250, 10)`, whose channels use both branches
of the gamma curve. -/
theorem rgb_roundtrip_witness :
    Rgb.InRange (⟨5, 250, 10⟩ : Rgb ℝ) ∧
    ∃ xyz, rgbToXyz Real.rpow (⟨5, 250, 10⟩ : Rgb ℝ) = .ok xyz ∧
      |(xyzToRgb Real.rpow (xyyToXyz (xyzToXyy xyz))).r - 5| ≤ 0.01 ∧
      |(xyzToRgb Real.rpow (xyyToXyz (xyzToXyy xyz))).g - 250| ≤ 0.01 ∧
      |(xyzToRgb Real.rpow (xyyToXyz (xyzToXyy xyz))).b - 10| ≤ 0.01 :=
  ⟨by norm_num [Rgb.InRange], rgb_roundtrip ⟨5, 250, 10⟩ (by norm_num [Rgb.InRange])⟩

/-! ## Evaluation at concrete colours -/

theorem srgbToLinearGamma_zero : srgbToLinearGamma Real.rpow 0 = .ok 0 := by
  rw [srgbToLinearGamma_of_lt 0 (le_refl _) (by norm_num)]
  norm_num

theorem srgbToLinearGamma_one : srgbToLinearGamma Real.rpow 1 = .ok 1 := by
  rw [srgbToLinearGamma_of_ge 1 (by norm_num) (le_refl _)]
  have : ((1 : ℝ) + 0.055) / 1.055 = 1 := by norm_num
  rw [this, Real.one_rpow]

theorem rgbToXyz_red :
    rgbToXyz Real.rpow ⟨255, 0, 0⟩ = .ok ⟨0.4360747, 0.2225045, 0.0139322⟩ := by
  unfold rgbToXyz
  simp only [zero_div, div_self (show (255 : ℝ) ≠ 0 by norm_num), srgbToLinearGamma_zero,
    srgbToLinearGamma_one]
  norm_num

theorem rgbToXyz_green :
    rgbToXyz Real.rpow ⟨0, 255, 0⟩ = .ok ⟨0.3850649, 0.7168786, 0.0971045⟩ := by
  unfold rgbToXyz
  simp only [zero_div, div_self (show (255 : ℝ) ≠ 0 by norm_num), srgbToLinearGamma_zero,
    srgbToLinearGamma_one]
  norm_num

theorem rgbToXyz_blue :
    rgbToXyz Real.rpow ⟨0, 0, 255⟩ = .ok ⟨0.1430804, 0.0606169, 0.7141733⟩ := by
  unfold rgbToXyz
  simp only [zero_div, div_self (show (255 : ℝ) ≠ 0 by norm_num), srgbToLinearGamma_zero,
    srgbToLinearGamma_one]
  norm_num

theorem rgbToXyz_black : rgbToXyz Real.rpow ⟨0, 0, 0⟩ = .ok ⟨0, 0, 0⟩ := by
  unfold rgbToXyz
  simp only [zero_div, srgbToLinearGamma_zero]
  norm_num

/-- Claim C7 (primary chromaticities): `xyzToXyy (rgbToXyz (Rgb(255,0,0)))` has
`x` within `0.01` of `0.64` and `y` within `0.01` of `0.33`; for `Rgb(0,255,0)`
`x` is within `0.05` of `0.30` and `y` within `0.05` of `0.60`; for
`Rgb(0,0,255)` `x` is within `0.01` of `0.15` and `y` within `0.01` of `0.06`. -/
theorem primary_chromaticities :
    (∃ xyz, rgbToXyz Real.rpow ⟨255, 0, 0⟩ = .ok xyz ∧
      |(xyzToXyy xyz).x - 0.64| ≤ 0.01 ∧ |(xyzToXyy xyz).y - 0.33| ≤ 0.01) ∧
    (∃ xyz, rgbToXyz Real.rpow ⟨0, 255, 0⟩ = .ok xyz ∧
      |(xyzToXyy xyz).x - 0.30| ≤ 0.05 ∧ |(xyzToXyy xyz).y - 0.60| ≤ 0.05) ∧
    (∃ xyz, rgbToXyz Real.rpow ⟨0, 0, 255⟩ = .ok xyz ∧
      |(xyzToXyy xyz).x - 0.15| ≤ 0.01 ∧ |(xyzToXyy xyz).y - 0.06| ≤ 0.01) := by
  refine ⟨⟨_, rgbToXyz_red, ?_, ?_⟩, ⟨_, rgbToXyz_green, ?_, ?_⟩, ⟨_, rgbToXyz_blue, ?_, ?_⟩⟩ <;>
  · unfold xyzToXyy
    norm_num [abs_le]

/-! ## Rounding and clamping -/

section Rounding
variable {α : Type} [LinearOrderedField α] [FloorRing α]

theorem clamp_cRound_of_lt_half (x : α) (h : x < 1 / 2) : clamp 0 (cRound x) 255 = 0 := by
  have hle : cRound x ≤ 0 := by
    unfold cRound
    split_ifs with h0
    · have : ⌊x + 1 / 2⌋ = 0 := by
        rw [Int.floor_eq_iff]
        constructor
        · simp only [Int.cast_zero]; linarith
        · simp only [Int.cast_zero]; linarith
      rw [this]
      simp
    · have : ⌈x - 1 / 2⌉ ≤ 0 := by
        rw [Int.ceil_le]
        simp only [Int.cast_zero]
        linarith
      exact_mod_cast this
  unfold clamp
  rw [min_eq_left (le_trans hle (by norm_num)), max_eq_left hle]

theorem clamp_cRound_of_mem (x : α) (n : ℕ) (hn : n ≤ 255) (h0 : 0 ≤ x)
    (h1 : (n : α) - 1 / 2 ≤ x) (h2 : x < (n : α) + 1 / 2) :
    clamp 0 (cRound x) 255 = (n : α) := by
  have hr : cRound x = (n : α) := by
    unfold cRound
    rw [if_pos h0]
    have : ⌊x + 1 / 2⌋ = (n : ℤ) := by
      rw [Int.floor_eq_iff]
      constructor
      · simp only [Int.cast_natCast]; linarith
      · simp only [Int.cast_natCast]; linarith
    rw [this]
    simp
  rw [hr]
  unfold clamp
  have hn' : (n : α) ≤ 255 := by exact_mod_cast hn
  rw [min_eq_left hn', max_eq_right (Nat.cast_nonneg n)]

theorem clamp_cRound_of_ge (x : α) (h : 255 - 1 / 2 ≤ x) : clamp 0 (cRound x) 255 = 255 := by
  have h0 : 0 ≤ x := by linarith
  have hr : (255 : α) ≤ cRound x := by
    unfold cRound
    rw [if_pos h0]
    have : (255 : ℤ) ≤ ⌊x + 1 / 2⌋ := by
      rw [Int.le_floor]
      simp only [Int.cast_ofNat]
      linarith
    exact_mod_cast this
  unfold clamp
  rw [min_eq_right hr]
  exact max_eq_right (by norm_num)

end Rounding

/-- The pipeline of `getProtoColor` once `rgbToXyz` has succeeded on a colour
whose chromaticity lies to the left of the confusion point. -/
theorem getProtoColor_of_rgbToXyz (rgb : Rgb ℝ) (xyz : Xyz ℝ)
    (hx : rgbToXyz Real.rpow rgb = .ok xyz) (hlt : (xyzToXyy xyz).x < 0.747)
    (ret : Rgb ℝ)
    (hret : ret = xyzToRgb Real.rpow (xyyToXyz (moveWithinRgb
      (xyyLine xyyConfusionPoint (xyzToXyy xyz))
      ⟨(-((xyyVisionCurve : QuadraticPolynomial ℝ).x
            - (xyyLine xyyConfusionPoint (xyzToXyy xyz)).m)
          + Real.sqrt (discriminant xyyVisionCurve (xyyLine xyyConfusionPoint (xyzToXyy xyz))))
          / (2.0 * (xyyVisionCurve : QuadraticPolynomial ℝ).xSquare),
        (xyyLine xyyConfusionPoint (xyzToXyy xyz)).m *
          ((-((xyyVisionCurve : QuadraticPolynomial ℝ).x
            - (xyyLine xyyConfusionPoint (xyzToXyy xyz)).m)
          + Real.sqrt (discriminant xyyVisionCurve (xyyLine xyyConfusionPoint (xyzToXyy xyz))))
          / (2.0 * (xyyVisionCurve : QuadraticPolynomial ℝ).xSquare))
          + (xyyLine xyyConfusionPoint (xyzToXyy xyz)).b,
        getProtanLuminance xyz⟩))) :
    getProtoColor Real.rpow Real.sqrt rgb =
      .ok ⟨clamp 0 (cRound ret.r) 255, clamp 0 (cRound ret.g) 255,
        clamp 0 (cRound ret.b) 255⟩ := by
  have hd := discriminant_confusionLine_nonneg _ hlt
  unfold getProtoColor
  rw [hx]
  simp only
  rw [intersectCurveLineXyy_of_nonneg _ _ _ _ hd, hret]

theorem xyzToXyy_black : xyzToXyy (⟨0, 0, 0⟩ : Xyz ℝ) = ⟨0.3457, 0.3585, 0⟩ := by
  unfold xyzToXyy XYY_WHITE_D50
  norm_num

theorem confusionLine_black :
    xyyLine xyyConfusionPoint (⟨0.3457, 0.3585, 0⟩ : Xyy ℝ) =
      ⟨-1055 / 4013, 901687 / 2006500⟩ := by
  rw [confusionLine_eq _ (by norm_num)]
  norm_num

theorem discriminant_black :
    discriminant xyyVisionCurve (⟨-1055 / 4013, 901687 / 2006500⟩ : Line ℝ) =
      (917996801711714 / 599489800842411) ^ 2 := by
  rw [xyyVisionCurve_eq]
  unfold discriminant
  norm_num

theorem moveWithinRgb_black :
    moveWithinRgb (⟨-1055 / 4013, 901687 / 2006500⟩ : Line ℝ) ⟨0.3457, 0.3585, 0⟩ =
      ⟨0.3457, 0.3585, 0⟩ := by
  unfold moveWithinRgb
  have h1 : ¬ ((0.3457 : ℝ) < (XYY_GREEN_PRIMARY : Xyy ℝ).x) := by
    unfold XYY_GREEN_PRIMARY; norm_num
  simp only [h1, if_false]
  rw [greenRedLine_eq]
  norm_num

theorem xyzToRgb_zero : xyzToRgb Real.rpow (⟨0, 0, 0⟩ : Xyz ℝ) = ⟨0, 0, 0⟩ := by
  unfold xyzToRgb
  simp only [zero_mul, add_zero]
  rw [linearToSrgbGamma_of_le 0 (by norm_num)]
  norm_num

/-- Black is a fixed point of the simulation. -/
theorem getProtoColor_black :
    getProtoColor Real.rpow Real.sqrt ⟨0, 0, 0⟩ = .ok ⟨0, 0, 0⟩ := by
  rw [getProtoColor_of_rgbToXyz _ _ rgbToXyz_black (by rw [xyzToXyy_black]; norm_num)
    ⟨0, 0, 0⟩]
  · simp only [clamp_cRound_of_lt_half (0 : ℝ) (by norm_num)]
  · rw [xyzToXyy_black, confusionLine_black, discriminant_black,
      Real.sqrt_sq (by norm_num), xyyVisionCurve_eq]
    simp only [getProtanLuminance]
    have h1 : (-(230815090193 / 149386942647 - -1055 / 4013 : ℝ)
        + 917996801711714 / 599489800842411) / (2.0 * (-59780900000 / 149386942647))
        = 0.3457 := by norm_num
    rw [h1]
    have h2 : (-1055 / 4013 : ℝ) * 0.3457 + 901687 / 2006500 = 0.3585 := by norm_num
    have h3 : (-0.460 : ℝ) * 0 + 1.359 * 0 + 0.101 * 0 = 0 := by norm_num
    rw [h2, h3, moveWithinRgb_black]
    have h4 : xyyToXyz (⟨0.3457, 0.3585, 0⟩ : Xyy ℝ) = ⟨0, 0, 0⟩ := by
      unfold xyyToXyz
      norm_num
    rw [h4, xyzToRgb_zero]

/-! ### Dark blues: `Rgb(0, 0, k)` with `0 < k ≤ 6` -/

theorem rgbToXyz_darkBlue (k : ℝ) (hk0 : 0 < k) (hk : k ≤ 6) :
    rgbToXyz Real.rpow ⟨0, 0, k⟩ =
      .ok ⟨k / 255 / 12.92 * 0.1430804, k / 255 / 12.92 * 0.0606169,
        k / 255 / 12.92 * 0.7141733⟩ := by
  have hb : srgbToLinearGamma Real.rpow (k / 255) = .ok (k / 255 / 12.92) := by
    apply srgbToLinearGamma_of_lt
    · positivity
    · rw [div_lt_iff₀ (by norm_num)]
      linarith
  unfold rgbToXyz
  simp only [zero_div, srgbToLinearGamma_zero, hb, zero_mul, zero_add]

theorem xyzToXyy_darkBlue (t : ℝ) (ht : 0 < t) :
    xyzToXyy (⟨t * 0.1430804, t * 0.0606169, t * 0.7141733⟩ : Xyz ℝ) =
      ⟨715402 / 4589353, 606169 / 9178706, t * 0.0606169⟩ := by
  have hs : t * 0.1430804 + t * 0.0606169 + t * 0.7141733 ≠ 0 := by
    apply ne_of_gt
    nlinarith
  unfold xyzToXyy
  simp only [hs, ne_eq, not_false_eq_true, if_true]
  congr 1
  · field_simp
    ring
  · field_simp
    ring

theorem confusionLine_blue (Y : ℝ) :
    xyyLine xyyConfusionPoint (⟨715402 / 4589353, 606169 / 9178706, Y⟩ : Xyy ℝ) =
      ⟨858021809 / 2712844691, 90814831 / 5425689382⟩ := by
  rw [confusionLine_eq _ (by norm_num)]
  norm_num

theorem discriminant_blue :
    discriminant xyyVisionCurve (⟨858021809 / 2712844691, 90814831 / 5425689382⟩ : Line ℝ) =
      209990972443438153763427930276894590956240 /
        164238564625747682143786180952934826303929 := by
  rw [xyyVisionCurve_eq]
  unfold discriminant
  norm_num

/-- The curve intersection of the blue confusion line lies left of `x = 0.15`. -/
theorem intersection_blue_lt :
    (-(230815090193 / 149386942647 - 858021809 / 2712844691 : ℝ)
      + Real.sqrt (209990972443438153763427930276894590956240 /
        164238564625747682143786180952934826303929))
      / (2.0 * (-59780900000 / 149386942647)) ≤ 0.15 := by
  have hs : (1.12 : ℝ) ≤ Real.sqrt (209990972443438153763427930276894590956240 /
        164238564625747682143786180952934826303929) := by
    apply Real.le_sqrt_of_sq_le
    norm_num
  generalize Real.sqrt (209990972443438153763427930276894590956240 /
        164238564625747682143786180952934826303929) = s at hs ⊢
  rw [div_le_iff_of_neg (by norm_num)]
  norm_num
  linarith

theorem moveWithinRgb_blue (x Y : ℝ) (hx : x ≤ 0.15) :
    moveWithinRgb (⟨858021809 / 2712844691, 90814831 / 5425689382⟩ : Line ℝ)
      ⟨x, 858021809 / 2712844691 * x + 90814831 / 5425689382, Y⟩ =
      ⟨1014005170387305115555099779517678662304559 /
          6504912861205992784782438750000000000000000,
        429589587482633782426197514091974393203941 /
          6504912861205992784782438750000000000000000, Y⟩ := by
  unfold moveWithinRgb
  have h1 : x < (XYY_GREEN_PRIMARY : Xyy ℝ).x := by
    unfold XYY_GREEN_PRIMARY
    simp only
    linarith
  simp only [h1, if_true]
  rw [blueGreenLine_eq]
  simp only
  rw [if_pos (by linarith)]
  norm_num

theorem xyzToRgb_darkBlue (Y : ℝ) (h0 : 0 ≤ Y) (h1 : Y ≤ 0.00018) :
    xyzToRgb Real.rpow (xyyToXyz (⟨1014005170387305115555099779517678662304559 /
          6504912861205992784782438750000000000000000,
        429589587482633782426197514091974393203941 /
          6504912861205992784782438750000000000000000, Y⟩ : Xyy ℝ)) =
      ⟨255 * (Y * (395775882102870126916763544181278690182747 /
          268493492176646114016373446307483995752463125000) * 12.92),
        255 * (Y * (-4458393505417258269928083214975815655704841 /
          4295895874826337824261975140919743932039410000000) * 12.92),
        255 * (Y * (70869609022128303684390063379987956958131648405653 /
          4295895874826337824261975140919743932039410000000) * 12.92)⟩ := by
  unfold xyyToXyz
  rw [if_pos (by norm_num)]
  unfold xyzToRgb
  simp only
  have hr : 1014005170387305115555099779517678662304559 /
          6504912861205992784782438750000000000000000 * Y /
          (429589587482633782426197514091974393203941 /
          6504912861205992784782438750000000000000000) * 3.1338561 + Y * -1.6168667
        + (1 - 1014005170387305115555099779517678662304559 /
          6504912861205992784782438750000000000000000 -
          429589587482633782426197514091974393203941 /
          6504912861205992784782438750000000000000000) * Y /
          (429589587482633782426197514091974393203941 /
          6504912861205992784782438750000000000000000) * -0.4906146
      = Y * (395775882102870126916763544181278690182747 /
          268493492176646114016373446307483995752463125000) := by
    ring
  have hg : 1014005170387305115555099779517678662304559 /
          6504912861205992784782438750000000000000000 * Y /
          (429589587482633782426197514091974393203941 /
          6504912861205992784782438750000000000000000) * -0.9787684 + Y * 1.9161415
        + (1 - 1014005170387305115555099779517678662304559 /
          6504912861205992784782438750000000000000000 -
          429589587482633782426197514091974393203941 /
          6504912861205992784782438750000000000000000) * Y /
          (429589587482633782426197514091974393203941 /
          6504912861205992784782438750000000000000000) * 0.0334540
      = Y * (-4458393505417258269928083214975815655704841 /
          4295895874826337824261975140919743932039410000000) := by
    ring
  have hb : 1014005170387305115555099779517678662304559 /
          6504912861205992784782438750000000000000000 * Y /
          (429589587482633782426197514091974393203941 /
          6504912861205992784782438750000000000000000) * 0.0719453 + Y * -0.2289914
        + (1 - 1014005170387305115555099779517678662304559 /
          6504912861205992784782438750000000000000000 -
          429589587482633782426197514091974393203941 /
          6504912861205992784782438750000000000000000) * Y /
          (429589587482633782426197514091974393203941 /
          6504912861205992784782438750000000000000000) * 1.4052427
      = Y * (70869609022128303684390063379987956958131648405653 /
          4295895874826337824261975140919743932039410000000) := by
    ring
  rw [hr, hg, hb, linearToSrgbGamma_of_le _ (by nlinarith),
    linearToSrgbGamma_of_le _ (by nlinarith), linearToSrgbGamma_of_le _ (by nlinarith)]

/-- The simulation of a dark blue `Rgb(0, 0, k)`: the curve intersection lies
outside the gamut and is moved to the blue-green edge, and every channel stays
on the linear part of the gamma curve. -/
theorem getProtoColor_darkBlue (k : ℝ) (hk0 : 0 < k) (hk : k ≤ 6) :
    getProtoColor Real.rpow Real.sqrt ⟨0, 0, k⟩ = .ok
      ⟨clamp 0 (cRound (255 * (k / 255 / 12.92 * (27716527 / 312500000) *
          (395775882102870126916763544181278690182747 /
          268493492176646114016373446307483995752463125000) * 12.92))) 255,
        clamp 0 (cRound (255 * (k / 255 / 12.92 * (27716527 / 312500000) *
          (-4458393505417258269928083214975815655704841 /
          4295895874826337824261975140919743932039410000000) * 12.92))) 255,
        clamp 0 (cRound (255 * (k / 255 / 12.92 * (27716527 / 312500000) *
          (70869609022128303684390063379987956958131648405653 /
          4295895874826337824261975140919743932039410000000) * 12.92))) 255⟩ := by
  have ht : (0 : ℝ) < k / 255 / 12.92 := by positivity
  have ht2 : k / 255 / 12.92 ≤ 0.002 := by
    rw [div_le_iff₀ (by norm_num), div_le_iff₀ (by norm_num)]
    linarith
  have hlum : getProtanLuminance (⟨k / 255 / 12.92 * 0.1430804, k / 255 / 12.92 * 0.0606169,
        k / 255 / 12.92 * 0.7141733⟩ : Xyz ℝ) = k / 255 / 12.92 * (27716527 / 312500000) := by
    unfold getProtanLuminance
    ring
  rw [getProtoColor_of_rgbToXyz _ _ (rgbToXyz_darkBlue k hk0 hk)
    (by rw [xyzToXyy_darkBlue _ ht]; norm_num) _ rfl]
  rw [xyzToXyy_darkBlue _ ht, confusionLine_blue, discriminant_blue, xyyVisionCurve_eq, hlum]
  simp only
  rw [moveWithinRgb_blue _ _ intersection_blue_lt,
    xyzToRgb_darkBlue _ (by positivity) (by linarith)]

theorem getProtoColor_blue_two :
    getProtoColor Real.rpow Real.sqrt ⟨0, 0, 2⟩ = .ok ⟨0, 0, 3⟩ := by
  rw [getProtoColor_darkBlue 2 (by norm_num) (by norm_num),
    clamp_cRound_of_lt_half _ (by norm_num), clamp_cRound_of_lt_half _ (by norm_num),
    clamp_cRound_of_mem _ 3 (by norm_num) (by norm_num) (by norm_num) (by norm_num)]
  norm_num

theorem getProtoColor_blue_three :
    getProtoColor Real.rpow Real.sqrt ⟨0, 0, 3⟩ = .ok ⟨0, 0, 4⟩ := by
  rw [getProtoColor_darkBlue 3 (by norm_num) (by norm_num),
    clamp_cRound_of_lt_half _ (by norm_num), clamp_cRound_of_lt_half _ (by norm_num),
    clamp_cRound_of_mem _ 4 (by norm_num) (by norm_num) (by norm_num) (by norm_num)]
  norm_num

/-- Claim C10 fails at `Rgb(0, 0, 2)`: its channels lie in `[0, 255]`,
`getProtoColor` maps it to `Rgb(0, 0, 3)` and that colour to `Rgb(0, 0, 4)`, so the
blue channels of the once- and twice-simulated colours differ by `1`, which is not
less than `0.5`. -/
theorem getProtoColor_not_idempotent :
    Rgb.InRange (⟨0, 0, 2⟩ : Rgb ℝ) ∧
    ∃ c1 c2 : Rgb ℝ, getProtoColor Real.rpow Real.sqrt ⟨0, 0, 2⟩ = .ok c1 ∧
      getProtoColor Real.rpow Real.sqrt c1 = .ok c2 ∧ ¬ (|c2.b - c1.b| < 0.5) := by
  refine ⟨by norm_num [Rgb.InRange], ⟨0, 0, 3⟩, ⟨0, 0, 4⟩, getProtoColor_blue_two,
    getProtoColor_blue_three, ?_⟩
  norm_num

/-! ### The flat-confusion-line fixture of `color_test.cpp` -/

/-- On `[0.0031309, 1]` the gamma round trip through a channel value is exact. -/
theorem srgbToLinearGamma_channel_of_linear (v : ℝ) (h : 0.0031309 ≤ v) (h1 : v ≤ 1) :
    srgbToLinearGamma Real.rpow (255 * linearToSrgbGamma Real.rpow v / 255) = .ok v := by
  have h0 : 0 ≤ v := by linarith
  rw [mul_div_cancel_left₀ _ (show (255 : ℝ) ≠ 0 by norm_num),
    linearToSrgbGamma_of_gt v (by linarith)]
  have h5 : (0.0031309 : ℝ) ^ (5 / 12 : ℝ) ≤ v ^ (5 / 12 : ℝ) :=
    Real.rpow_le_rpow (by norm_num) h (by norm_num)
  have hlo := rpow_five_twelfths_threshold_lower2
  have hle1 : v ^ (5 / 12 : ℝ) ≤ 1 := Real.rpow_le_one h0 h1 (by norm_num)
  rw [srgbToLinearGamma_of_ge _ (by linarith) (by linarith)]
  have : (1.055 * v ^ (5 / 12 : ℝ) - 0.055 + 0.055) / 1.055 = v ^ (5 / 12 : ℝ) := by
    field_simp
  rw [this, rpow_five_twelfths_twelve_fifths _ h0]

theorem xyzToRgb_fixture :
    xyzToRgb Real.rpow (xyyToXyz (⟨0.3, 0.253, 0.5⟩ : Xyy ℝ)) =
      ⟨255 * linearToSrgbGamma Real.rpow (3117848287 / 5060000000),
        255 * linearToSrgbGamma Real.rpow (82442887 / 202400000),
        255 * linearToSrgbGamma Real.rpow (537992957 / 460000000)⟩ := by
  unfold xyyToXyz
  rw [if_pos (by norm_num)]
  unfold xyzToRgb
  norm_num

theorem rgbToXyz_fixture :
    rgbToXyz Real.rpow ⟨(xyzToRgb Real.rpow (xyyToXyz (⟨0.3, 0.253, 0.5⟩ : Xyy ℝ))).r,
        (xyzToRgb Real.rpow (xyyToXyz (⟨0.3, 0.253, 0.5⟩ : Xyy ℝ))).g, 255⟩ =
      .ok ⟨7193120328395491 / 12650000000000000, 4955990646975493 / 10120000000000000,
        38572947669214289 / 50600000000000000⟩ := by
  rw [xyzToRgb_fixture]
  unfold rgbToXyz
  simp only [srgbToLinearGamma_channel_of_linear _ (show (0.0031309 : ℝ) ≤ 3117848287 / 5060000000
      by norm_num) (by norm_num),
    srgbToLinearGamma_channel_of_linear _ (show (0.0031309 : ℝ) ≤ 82442887 / 202400000
      by norm_num) (by norm_num),
    div_self (show (255 : ℝ) ≠ 0 by norm_num), srgbToLinearGamma_one]
  norm_num

theorem xyzToXyy_fixture :
    xyzToXyy (⟨7193120328395491 / 12650000000000000, 4955990646975493 / 10120000000000000,
        38572947669214289 / 50600000000000000⟩ : Xyz ℝ) =
      ⟨14386240656790982 / 46062691108836859, 24779953234877465 / 92125382217673718,
        4955990646975493 / 10120000000000000⟩ := by
  unfold xyzToXyy
  norm_num

theorem confusionLine_fixture (Y : ℝ) :
    xyyLine xyyConfusionPoint (⟨14386240656790982 / 46062691108836859,
        24779953234877465 / 92125382217673718, Y⟩ : Xyy ℝ) =
      ⟨-736115766903007173 / 20022589601510151673,
        11231187294117229463 / 40045179203020303346⟩ := by
  rw [confusionLine_eq _ (by norm_num)]
  norm_num

theorem discriminant_fixture :
    discriminant xyyVisionCurve (⟨-736115766903007173 / 20022589601510151673,
        11231187294117229463 / 40045179203020303346⟩ : Line ℝ) =
      16540006415225826647676690753245919842007930206939020809390160 /
        8946759637540921944628323665375310683922419969606588052661761 := by
  rw [xyyVisionCurve_eq]
  unfold discriminant
  norm_num

theorem intersection_fixture_bounds :
    (0.277593470118 : ℝ) ≤
      (-(230815090193 / 149386942647 - -736115766903007173 / 20022589601510151673 : ℝ)
      + Real.sqrt (16540006415225826647676690753245919842007930206939020809390160 /
        8946759637540921944628323665375310683922419969606588052661761))
      / (2.0 * (-59780900000 / 149386942647)) ∧
    (-(230815090193 / 149386942647 - -736115766903007173 / 20022589601510151673 : ℝ)
      + Real.sqrt (16540006415225826647676690753245919842007930206939020809390160 /
        8946759637540921944628323665375310683922419969606588052661761))
      / (2.0 * (-59780900000 / 149386942647)) ≤ 0.277593470119 := by
  have hs1 : (1.35967449773242 : ℝ) ≤
      Real.sqrt (16540006415225826647676690753245919842007930206939020809390160 /
        8946759637540921944628323665375310683922419969606588052661761) := by
    apply Real.le_sqrt_of_sq_le
    norm_num
  have hs2 : Real.sqrt (16540006415225826647676690753245919842007930206939020809390160 /
        8946759637540921944628323665375310683922419969606588052661761) ≤
      (1.35967449773243 : ℝ) := by
    rw [Real.sqrt_le_iff]
    constructor <;> norm_num
  generalize Real.sqrt (16540006415225826647676690753245919842007930206939020809390160 /
        8946759637540921944628323665375310683922419969606588052661761) = s at hs1 hs2 ⊢
  constructor
  · rw [le_div_iff_of_neg (by norm_num)]
    norm_num
    linarith
  · rw [div_le_iff_of_neg (by norm_num)]
    norm_num
    linarith

theorem moveWithinRgb_fixture (x Y : ℝ) (h1 : 0.27 ≤ x) (h2 : x ≤ 0.28) :
    moveWithinRgb (⟨-736115766903007173 / 20022589601510151673,
        11231187294117229463 / 40045179203020303346⟩ : Line ℝ)
      ⟨x, -736115766903007173 / 20022589601510151673 * x
        + 11231187294117229463 / 40045179203020303346, Y⟩ =
      ⟨x, -736115766903007173 / 20022589601510151673 * x
        + 11231187294117229463 / 40045179203020303346, Y⟩ := by
  unfold moveWithinRgb
  have hg : x < (XYY_GREEN_PRIMARY : Xyy ℝ).x := by
    unfold XYY_GREEN_PRIMARY
    simp only
    linarith
  simp only [hg, if_true]
  rw [blueGreenLine_eq]
  simp only
  rw [if_neg (by rw [gt_iff_lt, not_lt]; linarith)]

theorem rpow_five_twelfths_lt_iff (c x : ℝ) (hc : 0 ≤ c) (hx : 0 ≤ x) :
    x ^ (5 / 12 : ℝ) < c ↔ x ^ 5 < c ^ 12 := by
  rw [← not_le, ← not_le, le_rpow_five_twelfths_iff c x hc hx]

/-- Rounding a channel that comes out of the power branch of the gamma curve. -/
theorem clamp_cRound_gamma (t lo hi : ℝ) (n : ℕ) (hn : n ≤ 255) (hn1 : 1 ≤ n)
    (hlo : 0.0031308 < lo) (h1 : lo ≤ t) (h2 : t ≤ hi)
    (hclo : ((((n : ℝ) - 1 / 2) / 255 + 0.055) / 1.055) ^ 12 ≤ lo ^ 5)
    (hchi : hi ^ 5 < ((((n : ℝ) + 1 / 2) / 255 + 0.055) / 1.055) ^ 12) :
    clamp 0 (cRound (255 * linearToSrgbGamma Real.rpow t)) 255 = (n : ℝ) := by
  have hn1' : (1 : ℝ) ≤ n := by exact_mod_cast hn1
  have hc1 : (0 : ℝ) ≤ (((n : ℝ) - 1 / 2) / 255 + 0.055) / 1.055 := by
    have : (0 : ℝ) ≤ (n : ℝ) - 1 / 2 := by linarith
    positivity
  have hc2 : (0 : ℝ) ≤ (((n : ℝ) + 1 / 2) / 255 + 0.055) / 1.055 := by positivity
  have hlo0 : 0 ≤ lo := by linarith
  have hhi0 : 0 ≤ hi := by linarith
  have ht0 : 0 ≤ t := by linarith
  have hb1 : (((n : ℝ) - 1 / 2) / 255 + 0.055) / 1.055 ≤ t ^ (5 / 12 : ℝ) :=
    le_trans ((le_rpow_five_twelfths_iff _ _ hc1 hlo0).2 hclo)
      (Real.rpow_le_rpow hlo0 h1 (by norm_num))
  have hb2 : t ^ (5 / 12 : ℝ) < (((n : ℝ) + 1 / 2) / 255 + 0.055) / 1.055 :=
    lt_of_le_of_lt (Real.rpow_le_rpow ht0 h2 (by norm_num))
      ((rpow_five_twelfths_lt_iff _ _ hc2 hhi0).2 hchi)
  rw [linearToSrgbGamma_of_gt t (by linarith)]
  rw [div_le_iff₀ (by norm_num)] at hb1
  rw [lt_div_iff₀ (by norm_num)] at hb2
  apply clamp_cRound_of_mem _ n hn
  · linarith
  · linarith
  · linarith

theorem clamp_cRound_gamma_top (t lo : ℝ) (hlo : 0.0031308 < lo) (h1 : lo ≤ t)
    (hclo : (((255 - 1 / 2 : ℝ) / 255 + 0.055) / 1.055) ^ 12 ≤ lo ^ 5) :
    clamp 0 (cRound (255 * linearToSrgbGamma Real.rpow t)) 255 = 255 := by
  have hlo0 : 0 ≤ lo := by linarith
  have hb1 : ((255 - 1 / 2 : ℝ) / 255 + 0.055) / 1.055 ≤ t ^ (5 / 12 : ℝ) :=
    le_trans ((le_rpow_five_twelfths_iff _ _ (by norm_num) hlo0).2 hclo)
      (Real.rpow_le_rpow hlo0 h1 (by norm_num))
  rw [linearToSrgbGamma_of_gt t (by linarith)]
  rw [div_le_iff₀ (by norm_num)] at hb1
  apply clamp_cRound_of_ge
  linarith

/-- Bounds of a linear channel of `xyzToRgb (xyyToXyz ⟨x, y, Y⟩)` from linear
inequalities in `x` and `y`. -/
theorem channel_bounds (x y Y a1 a2 a3 lo hi : ℝ) (hy : 0 < y)
    (h1 : lo * y ≤ Y * (a1 * x + a2 * y + a3 * (1 - x - y)))
    (h2 : Y * (a1 * x + a2 * y + a3 * (1 - x - y)) ≤ hi * y) :
    lo ≤ x * Y / y * a1 + Y * a2 + (1 - x - y) * Y / y * a3 ∧
      x * Y / y * a1 + Y * a2 + (1 - x - y) * Y / y * a3 ≤ hi := by
  have h : x * Y / y * a1 + Y * a2 + (1 - x - y) * Y / y * a3
      = Y * (a1 * x + a2 * y + a3 * (1 - x - y)) / y := by
    field_simp
    ring
  rw [h, le_div_iff₀ hy, div_le_iff₀ hy]
  exact ⟨h1, h2⟩

theorem getProtanLuminance_fixture :
    getProtanLuminance (⟨7193120328395491 / 12650000000000000,
        4955990646975493 / 10120000000000000, 38572947669214289 / 50600000000000000⟩ : Xyz ℝ)
      = 6084120689135353671 / 12650000000000000000 := by
  unfold getProtanLuminance
  norm_num

/-- The simulated colour of the fixture is exactly `Rgb(165, 182, 255)`. -/
theorem getProtoColor_fixture :
    getProtoColor Real.rpow Real.sqrt
        ⟨(xyzToRgb Real.rpow (xyyToXyz (⟨0.3, 0.253, 0.5⟩ : Xyy ℝ))).r,
          (xyzToRgb Real.rpow (xyyToXyz (⟨0.3, 0.253, 0.5⟩ : Xyy ℝ))).g, 255⟩ =
      .ok ⟨165, 182, 255⟩ := by
  rw [getProtoColor_of_rgbToXyz _ _ rgbToXyz_fixture (by rw [xyzToXyy_fixture]; norm_num) _ rfl]
  rw [xyzToXyy_fixture, confusionLine_fixture, discriminant_fixture, xyyVisionCurve_eq,
    getProtanLuminance_fixture]
  simp only
  obtain ⟨hx1, hx2⟩ := intersection_fixture_bounds
  generalize (-(230815090193 / 149386942647 - -736115766903007173 / 20022589601510151673 : ℝ)
      + Real.sqrt (16540006415225826647676690753245919842007930206939020809390160 /
        8946759637540921944628323665375310683922419969606588052661761))
      / (2.0 * (-59780900000 / 149386942647)) = x at hx1 hx2 ⊢
  rw [moveWithinRgb_fixture x _ (by linarith) (by linarith)]
  have hy : (0 : ℝ) < -736115766903007173 / 20022589601510151673 * x
        + 11231187294117229463 / 40045179203020303346 := by linarith
  unfold xyyToXyz
  rw [if_pos hy.ne']
  unfold xyzToRgb
  simp only
  obtain ⟨hr1, hr2⟩ := channel_bounds x _ (6084120689135353671 / 12650000000000000000)
    3.1338561 (-1.6168667) (-0.4906146) 0.3757454779 0.3757454801 hy (by linarith) (by linarith)
  obtain ⟨hg1, hg2⟩ := channel_bounds x _ (6084120689135353671 / 12650000000000000000)
    (-0.9787684) 1.9161415 0.0334540 0.464977946 0.4649779481 hy (by linarith) (by linarith)
  obtain ⟨hb1, -⟩ := channel_bounds x _ (6084120689135353671 / 12650000000000000000)
    0.0719453 (-0.2289914) 1.4052427 1.0561467298 1.0561467319 hy (by linarith) (by linarith)
  rw [clamp_cRound_gamma _ _ _ 165 (by norm_num) (by norm_num) (by norm_num) hr1 hr2
      (by norm_num) (by norm_num),
    clamp_cRound_gamma _ _ _ 182 (by norm_num) (by norm_num) (by norm_num) hg1 hg2
      (by norm_num) (by norm_num),
    clamp_cRound_gamma_top _ _ (by norm_num) hb1 (by norm_num)]
  norm_num

/-! ## The remaining claims about `getProtoColor` -/

/-- Claim C2 (flat-confusion-line fixture): with
`rgb = xyzToRgb (xyyToXyz (Xyy(0.3, 0.253, 0.5)))`, `getProtoColor` applied to
`Rgb(rgb.r, rgb.g, 255)` returns a colour whose `r`, `g` and `b` channels are within
`0.5` of `165`, `182` and `255`; it is exactly `Rgb(165, 182, 255)`. -/
theorem flat_confusion_line_fixture :
    ∃ out : Rgb ℝ,
      getProtoColor Real.rpow Real.sqrt
        ⟨(xyzToRgb Real.rpow (xyyToXyz (⟨0.3, 0.253, 0.5⟩ : Xyy ℝ))).r,
          (xyzToRgb Real.rpow (xyyToXyz (⟨0.3, 0.253, 0.5⟩ : Xyy ℝ))).g, 255⟩ = .ok out ∧
      out = ⟨165, 182, 255⟩ ∧
      |out.r - 165| ≤ 0.5 ∧ |out.g - 182| ≤ 0.5 ∧ |out.b - 255| ≤ 0.5 := by
  refine ⟨⟨165, 182, 255⟩, getProtoColor_fixture, rfl, ?_, ?_, ?_⟩ <;> norm_num

/-- Claim C3 (output range of `getProtoColor`): whenever `getProtoColor` returns a
colour, each of its `r`, `g`, `b` channels is an integer between `0` and `255`, so
the colour is a valid input: `rgbToXyz` succeeds on it and so does `getProtoColor`
itself. -/
theorem getProtoColor_output_range (rgb out : Rgb ℝ)
    (h : getProtoColor Real.rpow Real.sqrt rgb = .ok out) :
    ((∃ n : ℤ, out.r = (n : ℝ)) ∧ 0 ≤ out.r ∧ out.r ≤ 255) ∧
    ((∃ n : ℤ, out.g = (n : ℝ)) ∧ 0 ≤ out.g ∧ out.g ≤ 255) ∧
    ((∃ n : ℤ, out.b = (n : ℝ)) ∧ 0 ≤ out.b ∧ out.b ≤ 255) ∧
    (∃ xyz, rgbToXyz Real.rpow out = .ok xyz) ∧
    (∃ out2, getProtoColor Real.rpow Real.sqrt out = .ok out2) := by
  obtain ⟨hr, hg, hb, hx, -⟩ := getProtoColor_ok_range Real.rpow Real.sqrt rgb out h
  exact ⟨hr, hg, hb, hx,
    getProtoColor_isOk_of_inRange out ⟨hr.2, hg.2, hb.2⟩⟩

/-- Claim C3 at black, which `getProtoColor` returns for the input black. -/
theorem getProtoColor_output_range_witness :
    getProtoColor Real.rpow Real.sqrt (⟨0, 0, 0⟩ : Rgb ℝ) = .ok ⟨0, 0, 0⟩ ∧
    ((∃ n : ℤ, (0 : ℝ) = (n : ℝ)) ∧ (0 : ℝ) ≤ 0 ∧ (0 : ℝ) ≤ 255) ∧
    (∃ xyz, rgbToXyz Real.rpow (⟨0, 0, 0⟩ : Rgb ℝ) = .ok xyz) ∧
    (∃ out2, getProtoColor Real.rpow Real.sqrt (⟨0, 0, 0⟩ : Rgb ℝ) = .ok out2) :=
  ⟨getProtoColor_black,
    (getProtoColor_output_range ⟨0, 0, 0⟩ ⟨0, 0, 0⟩ getProtoColor_black).1,
    (getProtoColor_output_range ⟨0, 0, 0⟩ ⟨0, 0, 0⟩ getProtoColor_black).2.2.2.1,
    (getProtoColor_output_range ⟨0, 0, 0⟩ ⟨0, 0, 0⟩ getProtoColor_black).2.2.2.2⟩

/-- Claim C5 fails at `Rgb(300, 0, 0)`: `getProtoColor` neither returns a colour nor
fails on the discriminant; the assertion `intensity <= 1` of `srgbToLinearGamma`
fails. -/
theorem getProtoColor_gamma_failure :
    getProtoColor Real.rpow Real.sqrt (⟨300, 0, 0⟩ : Rgb ℝ) = .error .gammaAboveOne ∧
    ¬ ((∃ out, getProtoColor Real.rpow Real.sqrt (⟨300, 0, 0⟩ : Rgb ℝ) = .ok out) ∨
      getProtoColor Real.rpow Real.sqrt (⟨300, 0, 0⟩ : Rgb ℝ)
        = .error .negativeDiscriminant) := by
  have h : getProtoColor Real.rpow Real.sqrt (⟨300, 0, 0⟩ : Rgb ℝ)
      = .error .gammaAboveOne := by
    have hs : srgbToLinearGamma Real.rpow ((300 : ℝ) / 255) = .error .gammaAboveOne := by
      unfold srgbToLinearGamma
      norm_num
    unfold getProtoColor rgbToXyz
    simp only [hs]
  refine ⟨h, ?_⟩
  rw [h]
  simp

/-- Claim C5 as amended (the failures of `getProtoColor`): on an input whose
channels all lie in `[0, 255]`, `getProtoColor` either returns a colour or fails
because the discriminant is negative; on every other input it fails on one of the
two assertions of `srgbToLinearGamma`.  This holds for any field, `pow` and
`sqrt`. -/
theorem getProtoColor_failure_modes {α : Type} [LinearOrderedField α] [FloorRing α]
    (pow : α → α → α) (sqrt : α → α) (rgb : Rgb α) :
    (rgb.InRange →
      (∃ out, getProtoColor pow sqrt rgb = .ok out) ∨
        getProtoColor pow sqrt rgb = .error .negativeDiscriminant) ∧
    (¬ rgb.InRange →
      getProtoColor pow sqrt rgb = .error .gammaBelowZero ∨
        getProtoColor pow sqrt rgb = .error .gammaAboveOne) :=
  getProtoColor_total pow sqrt rgb

/-! ## The conversions between XYZ and xyY, and `xyzToRgb` beyond the gamut -/

/-- Claim C12 (`xyzToRgb` does not clamp): the blue channel of
`xyzToRgb (xyyToXyz (Xyy(0.3, 0.253, 0.5)))` is strictly greater than `255`. -/
theorem xyzToRgb_blue_above_255 :
    (255 : ℝ) < (xyzToRgb Real.rpow (xyyToXyz (⟨0.3, 0.253, 0.5⟩ : Xyy ℝ))).b := by
  rw [xyzToRgb_fixture]
  simp only
  rw [linearToSrgbGamma_of_gt _ (by norm_num)]
  have h : (1 : ℝ) < (537992957 / 460000000 : ℝ) ^ (5 / 12 : ℝ) :=
    Real.one_lt_rpow (by norm_num) (by norm_num)
  linarith

section Conversions

variable {α : Type} [LinearOrderedField α]

/-- Claim C13 fails at `Xyz(-1, 1, 0)`: the sum of the components is zero, and
`xyzToXyy` returns the white chromaticity with luminance `1`, not `0`. -/
theorem xyzToXyy_zero_sum_luminance :
    ((-1 : ℝ) + 1 + 0 = 0) ∧
    xyzToXyy (⟨-1, 1, 0⟩ : Xyz ℝ) = ⟨0.3457, 0.3585, 1⟩ ∧
    (xyzToXyy (⟨-1, 1, 0⟩ : Xyz ℝ)).Y ≠ 0 := by
  have h : xyzToXyy (⟨-1, 1, 0⟩ : Xyz ℝ) = ⟨0.3457, 0.3585, 1⟩ := by
    unfold xyzToXyy XYY_WHITE_D50
    norm_num
  refine ⟨by norm_num, h, ?_⟩
  rw [h]
  norm_num

/-- Claim C13 as amended (zero-sum default of `xyzToXyy`): for every `Xyz` with
`x + y + z = 0`, `xyzToXyy` returns the chromaticity `(0.3457, 0.3585)` with the
luminance `Y` equal to the input's `y`, which is `0` when no component of the input
is negative; for every `Xyz` with `x + y + z ≠ 0` it returns
`(x/(x+y+z), y/(x+y+z), y)`. -/
theorem xyzToXyy_cases (v : Xyz α) :
    (v.x + v.y + v.z = 0 → xyzToXyy v = ⟨0.3457, 0.3585, v.y⟩) ∧
    (v.x + v.y + v.z = 0 → 0 ≤ v.x → 0 ≤ v.y → 0 ≤ v.z →
      xyzToXyy v = ⟨0.3457, 0.3585, 0⟩) ∧
    (v.x + v.y + v.z ≠ 0 →
      xyzToXyy v = ⟨v.x / (v.x + v.y + v.z), v.y / (v.x + v.y + v.z), v.y⟩) := by
  have h1 : v.x + v.y + v.z = 0 → xyzToXyy v = ⟨0.3457, 0.3585, v.y⟩ := by
    intro h
    unfold xyzToXyy XYY_WHITE_D50
    simp [h]
  refine ⟨h1, ?_, ?_⟩
  · intro h hx hy hz
    have hy0 : v.y = 0 := by linarith
    rw [h1 h, hy0]
  · intro h
    unfold xyzToXyy
    simp [h]

/-- Claim C14 (zero-luminance boundary): on `Xyz(0, 0, 0)` the test `sum != 0` of
`xyzToXyy` is false, so the branch with the two divisions is not taken, and the
result is exactly `Xyy(0.3457, 0.3585, 0)`, the D50 white chromaticity with
`Y = 0`. -/
theorem xyzToXyy_zero :
    ¬ ((0 : α) + 0 + 0 ≠ 0) ∧
    xyzToXyy (⟨0, 0, 0⟩ : Xyz α) = ⟨0.3457, 0.3585, 0⟩ ∧
    (⟨0.3457, 0.3585, 0⟩ : Xyy α) =
      ⟨(XYY_WHITE_D50 : Xyy α).x, (XYY_WHITE_D50 : Xyy α).y, 0⟩ := by
  refine ⟨by simp, ?_, ?_⟩
  · unfold xyzToXyy XYY_WHITE_D50
    simp
  · unfold XYY_WHITE_D50
    rfl

/-- Claim C15 (`xyyToXyz`): for every `Xyy` with `y = 0` the result is
`Xyz(0, 0, 0)`, whatever the luminance; for every `Xyy` with `y ≠ 0` the result is
`Xyz(x*Y/y, Y, (1 - x - y)*Y/y)`. -/
theorem xyyToXyz_cases (p : Xyy α) :
    (p.y = 0 → xyyToXyz p = ⟨0, 0, 0⟩) ∧
    (p.y ≠ 0 → xyyToXyz p = ⟨p.x * p.Y / p.y, p.Y, (1 - p.x - p.y) * p.Y / p.y⟩) := by
  constructor
  · intro h
    unfold xyyToXyz
    simp [h]
  · intro h
    unfold xyyToXyz
    simp [h]

end Conversions

/-! ## Interpolation, root selection and the gamut edge -/

section Interpolation

variable {α : Type} [LinearOrderedField α]

/-- Claim C17 (Lagrange interpolation is exact): for any three xyY points with
pairwise distinct `x`, the polynomial `(a, b, c)` that `lagrangeInterpolateXyy`
returns satisfies `a*xi^2 + b*xi + c = yi` at each of the three points. -/
theorem lagrangeInterpolateXyy_exact (p0 p1 p2 : Xyy α)
    (h01 : p0.x ≠ p1.x) (h02 : p0.x ≠ p2.x) (h12 : p1.x ≠ p2.x) :
    (lagrangeInterpolateXyy p0 p1 p2).xSquare * p0.x ^ 2
        + (lagrangeInterpolateXyy p0 p1 p2).x * p0.x
        + (lagrangeInterpolateXyy p0 p1 p2).c = p0.y ∧
    (lagrangeInterpolateXyy p0 p1 p2).xSquare * p1.x ^ 2
        + (lagrangeInterpolateXyy p0 p1 p2).x * p1.x
        + (lagrangeInterpolateXyy p0 p1 p2).c = p1.y ∧
    (lagrangeInterpolateXyy p0 p1 p2).xSquare * p2.x ^ 2
        + (lagrangeInterpolateXyy p0 p1 p2).x * p2.x
        + (lagrangeInterpolateXyy p0 p1 p2).c = p2.y := by
  obtain ⟨x0, y0, Y0⟩ := p0
  obtain ⟨x1, y1, Y1⟩ := p1
  obtain ⟨x2, y2, Y2⟩ := p2
  simp only at h01 h02 h12
  have ha0 : y0 / ((x0 - x1) * (x0 - x2)) * ((x0 - x1) * (x0 - x2)) = y0 :=
    div_mul_cancel₀ _ (mul_ne_zero (sub_ne_zero.mpr h01) (sub_ne_zero.mpr h02))
  have ha1 : y1 / ((x1 - x0) * (x1 - x2)) * ((x1 - x0) * (x1 - x2)) = y1 :=
    div_mul_cancel₀ _ (mul_ne_zero (sub_ne_zero.mpr (Ne.symm h01)) (sub_ne_zero.mpr h12))
  have ha2 : y2 / ((x2 - x0) * (x2 - x1)) * ((x2 - x0) * (x2 - x1)) = y2 :=
    div_mul_cancel₀ _ (mul_ne_zero (sub_ne_zero.mpr (Ne.symm h02))
      (sub_ne_zero.mpr (Ne.symm h12)))
  unfold lagrangeInterpolateXyy lagrangeStepXyy
  simp only
  generalize y0 / ((x0 - x1) * (x0 - x2)) = a0 at ha0 ⊢
  generalize y1 / ((x1 - x0) * (x1 - x2)) = a1 at ha1 ⊢
  generalize y2 / ((x2 - x0) * (x2 - x1)) = a2 at ha2 ⊢
  refine ⟨?_, ?_, ?_⟩
  · linear_combination ha0
  · linear_combination ha1
  · linear_combination ha2

/-- Claim C17 at the three points of the vision curve: `xyyVisionCurve` passes
through `XYY_470`, `XYY_575` and `XYY_WHITE_D50`. -/
theorem lagrangeInterpolateXyy_exact_witness :
    ((XYY_470 : Xyy ℝ).x ≠ (XYY_575 : Xyy ℝ).x ∧
      (XYY_470 : Xyy ℝ).x ≠ (XYY_WHITE_D50 : Xyy ℝ).x ∧
      (XYY_575 : Xyy ℝ).x ≠ (XYY_WHITE_D50 : Xyy ℝ).x) ∧
    ((xyyVisionCurve : QuadraticPolynomial ℝ).xSquare * (XYY_470 : Xyy ℝ).x ^ 2
        + (xyyVisionCurve : QuadraticPolynomial ℝ).x * (XYY_470 : Xyy ℝ).x
        + (xyyVisionCurve : QuadraticPolynomial ℝ).c = (XYY_470 : Xyy ℝ).y ∧
    (xyyVisionCurve : QuadraticPolynomial ℝ).xSquare * (XYY_575 : Xyy ℝ).x ^ 2
        + (xyyVisionCurve : QuadraticPolynomial ℝ).x * (XYY_575 : Xyy ℝ).x
        + (xyyVisionCurve : QuadraticPolynomial ℝ).c = (XYY_575 : Xyy ℝ).y ∧
    (xyyVisionCurve : QuadraticPolynomial ℝ).xSquare * (XYY_WHITE_D50 : Xyy ℝ).x ^ 2
        + (xyyVisionCurve : QuadraticPolynomial ℝ).x * (XYY_WHITE_D50 : Xyy ℝ).x
        + (xyyVisionCurve : QuadraticPolynomial ℝ).c = (XYY_WHITE_D50 : Xyy ℝ).y) :=
  ⟨⟨by norm_num [XYY_470, XYY_575], by norm_num [XYY_470, XYY_WHITE_D50],
      by norm_num [XYY_575, XYY_WHITE_D50]⟩,
    lagrangeInterpolateXyy_exact XYY_470 XYY_575 XYY_WHITE_D50
      (by norm_num [XYY_470, XYY_575]) (by norm_num [XYY_470, XYY_WHITE_D50])
      (by norm_num [XYY_575, XYY_WHITE_D50])⟩

/-- What `moveWithinRgb` does once the edge line it tests against is named. -/
theorem moveWithinRgb_of_edge (line : Line α) (p : Xyy α) (edge : Line α)
    (hedge : edge = if p.x < (XYY_GREEN_PRIMARY : Xyy α).x
      then xyyLine XYY_BLUE_PRIMARY XYY_GREEN_PRIMARY
      else xyyLine XYY_GREEN_PRIMARY XYY_RED_PRIMARY) :
    (¬ p.y > edge.m * p.x + edge.b → moveWithinRgb line p = p) ∧
    (p.y > edge.m * p.x + edge.b → line.m ≠ edge.m →
      (moveWithinRgb line p).y = edge.m * (moveWithinRgb line p).x + edge.b ∧
      (moveWithinRgb line p).y = line.m * (moveWithinRgb line p).x + line.b ∧
      (moveWithinRgb line p).Y = p.Y) := by
  constructor
  · intro h
    unfold moveWithinRgb
    simp only
    rw [← hedge, if_neg h]
  · intro h hm
    have hd : line.m - edge.m ≠ 0 := sub_ne_zero.mpr hm
    unfold moveWithinRgb
    simp only
    rw [← hedge, if_pos h]
    simp only
    refine ⟨trivial, ?_, trivial⟩
    field_simp
    ring

/-- Claim C19 (gamut edge clamp): `moveWithinRgb line p` tests `p` against the
blue-green edge line when `p.x < XYY_GREEN_PRIMARY.x` and against the green-red edge
line otherwise.  If `p.y` is not greater than the edge's `y` at `p.x`, it returns
`p` unchanged; otherwise, when the slopes of `line` and of the edge differ, it
returns the point that lies on both `line` and the edge, with luminance `p.Y`. -/
theorem moveWithinRgb_edge_clamp (line : Line α) (p : Xyy α) :
    (p.x < (XYY_GREEN_PRIMARY : Xyy α).x →
      (¬ p.y > (xyyLine XYY_BLUE_PRIMARY XYY_GREEN_PRIMARY : Line α).m * p.x
          + (xyyLine XYY_BLUE_PRIMARY XYY_GREEN_PRIMARY : Line α).b →
        moveWithinRgb line p = p) ∧
      (p.y > (xyyLine XYY_BLUE_PRIMARY XYY_GREEN_PRIMARY : Line α).m * p.x
          + (xyyLine XYY_BLUE_PRIMARY XYY_GREEN_PRIMARY : Line α).b →
        line.m ≠ (xyyLine XYY_BLUE_PRIMARY XYY_GREEN_PRIMARY : Line α).m →
        (moveWithinRgb line p).y =
          (xyyLine XYY_BLUE_PRIMARY XYY_GREEN_PRIMARY : Line α).m * (moveWithinRgb line p).x
            + (xyyLine XYY_BLUE_PRIMARY XYY_GREEN_PRIMARY : Line α).b ∧
        (moveWithinRgb line p).y = line.m * (moveWithinRgb line p).x + line.b ∧
        (moveWithinRgb line p).Y = p.Y)) ∧
    (¬ p.x < (XYY_GREEN_PRIMARY : Xyy α).x →
      (¬ p.y > (xyyLine XYY_GREEN_PRIMARY XYY_RED_PRIMARY : Line α).m * p.x
          + (xyyLine XYY_GREEN_PRIMARY XYY_RED_PRIMARY : Line α).b →
        moveWithinRgb line p = p) ∧
      (p.y > (xyyLine XYY_GREEN_PRIMARY XYY_RED_PRIMARY : Line α).m * p.x
          + (xyyLine XYY_GREEN_PRIMARY XYY_RED_PRIMARY : Line α).b →
        line.m ≠ (xyyLine XYY_GREEN_PRIMARY XYY_RED_PRIMARY : Line α).m →
        (moveWithinRgb line p).y =
          (xyyLine XYY_GREEN_PRIMARY XYY_RED_PRIMARY : Line α).m * (moveWithinRgb line p).x
            + (xyyLine XYY_GREEN_PRIMARY XYY_RED_PRIMARY : Line α).b ∧
        (moveWithinRgb line p).y = line.m * (moveWithinRgb line p).x + line.b ∧
        (moveWithinRgb line p).Y = p.Y)) := by
  constructor
  · intro h
    exact moveWithinRgb_of_edge line p _ (by rw [if_pos h])
  · intro h
    exact moveWithinRgb_of_edge line p _ (by rw [if_neg h])

end Interpolation

/-! ### The root that `intersectCurveLineXyy` selects -/

/-- For a quadratic that opens downwards, `intersectCurveLineXyy` returns the
smaller of the two roots of `A*x^2 + B*x + C`, and no other real is a root. -/
theorem intersectCurveLineXyy_smaller_root (poly : QuadraticPolynomial ℝ) (line : Line ℝ)
    (Y : ℝ) (hA : poly.xSquare < 0) (h : 0 ≤ discriminant poly line) :
    ∃ p, intersectCurveLineXyy Real.sqrt poly line Y = .ok p ∧
      p.x = (-(poly.x - line.m) + Real.sqrt (discriminant poly line)) / (2 * poly.xSquare) ∧
      p.Y = Y ∧
      p.y = line.m * p.x + line.b ∧
      p.y = poly.xSquare * p.x ^ 2 + poly.x * p.x + poly.c ∧
      p.x ≤ (-(poly.x - line.m) - Real.sqrt (discriminant poly line)) / (2 * poly.xSquare) ∧
      (∀ r : ℝ, poly.xSquare * r ^ 2 + (poly.x - line.m) * r + (poly.c - line.b) = 0 ↔
        r = p.x ∨
        r = (-(poly.x - line.m) - Real.sqrt (discriminant poly line))
          / (2 * poly.xSquare)) := by
  refine ⟨_, intersectCurveLineXyy_of_nonneg _ _ _ _ h, ?_⟩
  simp only
  have hs0 : 0 ≤ Real.sqrt (discriminant poly line) := Real.sqrt_nonneg _
  have hD : discriminant poly line
      = (poly.x - line.m) ^ 2 - 4 * poly.xSquare * (poly.c - line.b) := by
    unfold discriminant
    norm_num
    ring
  have hs2 : Real.sqrt (discriminant poly line) ^ 2
      = (poly.x - line.m) ^ 2 - 4 * poly.xSquare * (poly.c - line.b) :=
    (Real.sq_sqrt h).trans hD
  generalize Real.sqrt (discriminant poly line) = s at hs0 hs2 ⊢
  have h2 : (2.0 : ℝ) = 2 := by norm_num
  rw [h2]
  have hA2 : 2 * poly.xSquare < 0 := by linarith
  have hA0 : poly.xSquare ≠ 0 := hA.ne
  have hx1 : 2 * poly.xSquare * ((-(poly.x - line.m) + s) / (2 * poly.xSquare))
      = -(poly.x - line.m) + s := by
    field_simp
  have hx2 : 2 * poly.xSquare * ((-(poly.x - line.m) - s) / (2 * poly.xSquare))
      = -(poly.x - line.m) - s := by
    field_simp
  generalize (-(poly.x - line.m) + s) / (2 * poly.xSquare) = x1 at hx1 ⊢
  refine ⟨rfl, trivial, trivial, ?_, ?_, ?_⟩
  · have h4 : 4 * poly.xSquare * (poly.xSquare * x1 ^ 2 + (poly.x - line.m) * x1
        + (poly.c - line.b)) = 0 := by
      have : (2 * poly.xSquare * x1 + (poly.x - line.m)) ^ 2 = s ^ 2 := by
        rw [hx1]; ring
      linear_combination this + hs2
    have h5 := (mul_eq_zero.mp h4).resolve_left (by
      have : 4 * poly.xSquare < 0 := by linarith
      exact this.ne)
    linarith
  · rw [le_div_iff_of_neg hA2]
    linarith
  · generalize (-(poly.x - line.m) - s) / (2 * poly.xSquare) = x2 at hx2 ⊢
    intro r
    have hr : 4 * poly.xSquare * (poly.xSquare * r ^ 2 + (poly.x - line.m) * r
        + (poly.c - line.b))
        = (2 * poly.xSquare * r + (poly.x - line.m) - s)
          * (2 * poly.xSquare * r + (poly.x - line.m) + s) := by
      linear_combination hs2
    constructor
    · intro h0
      rw [h0, mul_zero] at hr
      rcases mul_eq_zero.mp hr.symm with h6 | h6
      · left
        have : 2 * poly.xSquare * r = 2 * poly.xSquare * x1 := by linarith
        exact mul_left_cancel₀ hA2.ne this
      · right
        have : 2 * poly.xSquare * r = 2 * poly.xSquare * x2 := by linarith
        exact mul_left_cancel₀ hA2.ne this
    · intro h0
      have h7 : (2 * poly.xSquare * r + (poly.x - line.m) - s)
          * (2 * poly.xSquare * r + (poly.x - line.m) + s) = 0 := by
        rcases h0 with h0 | h0
        · rw [h0, hx1]; ring
        · rw [h0, hx2]; ring
      rw [← hr] at h7
      exact (mul_eq_zero.mp h7).resolve_left (by
        have : 4 * poly.xSquare < 0 := by linarith
        exact this.ne)

/-- Claim C16 (root selection): for the vision curve and every line with
non-negative discriminant, `intersectCurveLineXyy` returns a point that lies on the
line and on the curve; its `x` is `(-B + sqrt(discriminant)) / (2A)`, which is the
smaller of the two roots of `A*x^2 + B*x + C = 0` (the leading coefficient of the
curve is negative), and these two are the only roots. -/
theorem root_selection (line : Line ℝ) (Y : ℝ)
    (h : 0 ≤ discriminant xyyVisionCurve line) :
    ∃ p, intersectCurveLineXyy Real.sqrt xyyVisionCurve line Y = .ok p ∧
      p.x = (-((xyyVisionCurve : QuadraticPolynomial ℝ).x - line.m)
          + Real.sqrt (discriminant xyyVisionCurve line))
        / (2 * (xyyVisionCurve : QuadraticPolynomial ℝ).xSquare) ∧
      p.Y = Y ∧
      p.y = line.m * p.x + line.b ∧
      p.y = (xyyVisionCurve : QuadraticPolynomial ℝ).xSquare * p.x ^ 2
        + (xyyVisionCurve : QuadraticPolynomial ℝ).x * p.x
        + (xyyVisionCurve : QuadraticPolynomial ℝ).c ∧
      p.x ≤ (-((xyyVisionCurve : QuadraticPolynomial ℝ).x - line.m)
          - Real.sqrt (discriminant xyyVisionCurve line))
        / (2 * (xyyVisionCurve : QuadraticPolynomial ℝ).xSquare) ∧
      (∀ r : ℝ, (xyyVisionCurve : QuadraticPolynomial ℝ).xSquare * r ^ 2
          + ((xyyVisionCurve : QuadraticPolynomial ℝ).x - line.m) * r
          + ((xyyVisionCurve : QuadraticPolynomial ℝ).c - line.b) = 0 ↔
        r = p.x ∨
        r = (-((xyyVisionCurve : QuadraticPolynomial ℝ).x - line.m)
            - Real.sqrt (discriminant xyyVisionCurve line))
          / (2 * (xyyVisionCurve : QuadraticPolynomial ℝ).xSquare)) :=
  intersectCurveLineXyy_smaller_root xyyVisionCurve line Y
    (by rw [xyyVisionCurve_eq]; norm_num) h

/-- Claim C16 at the confusion line of the white chromaticity,
`y = -1055/4013 * x + 901687/2006500`, with luminance `1`. -/
theorem root_selection_witness :
    0 ≤ discriminant xyyVisionCurve (⟨-1055 / 4013, 901687 / 2006500⟩ : Line ℝ) ∧
    ∃ p, intersectCurveLineXyy Real.sqrt xyyVisionCurve
        (⟨-1055 / 4013, 901687 / 2006500⟩ : Line ℝ) 1 = .ok p ∧
      p.x = (-((xyyVisionCurve : QuadraticPolynomial ℝ).x - -1055 / 4013)
          + Real.sqrt (discriminant xyyVisionCurve
            (⟨-1055 / 4013, 901687 / 2006500⟩ : Line ℝ)))
        / (2 * (xyyVisionCurve : QuadraticPolynomial ℝ).xSquare) ∧
      p.Y = 1 ∧
      p.y = -1055 / 4013 * p.x + 901687 / 2006500 ∧
      p.y = (xyyVisionCurve : QuadraticPolynomial ℝ).xSquare * p.x ^ 2
        + (xyyVisionCurve : QuadraticPolynomial ℝ).x * p.x
        + (xyyVisionCurve : QuadraticPolynomial ℝ).c ∧
      p.x ≤ (-((xyyVisionCurve : QuadraticPolynomial ℝ).x - -1055 / 4013)
          - Real.sqrt (discriminant xyyVisionCurve
            (⟨-1055 / 4013, 901687 / 2006500⟩ : Line ℝ)))
        / (2 * (xyyVisionCurve : QuadraticPolynomial ℝ).xSquare) ∧
      (∀ r : ℝ, (xyyVisionCurve : QuadraticPolynomial ℝ).xSquare * r ^ 2
          + ((xyyVisionCurve : QuadraticPolynomial ℝ).x - -1055 / 4013) * r
          + ((xyyVisionCurve : QuadraticPolynomial ℝ).c - 901687 / 2006500) = 0 ↔
        r = p.x ∨
        r = (-((xyyVisionCurve : QuadraticPolynomial ℝ).x - -1055 / 4013)
            - Real.sqrt (discriminant xyyVisionCurve
              (⟨-1055 / 4013, 901687 / 2006500⟩ : Line ℝ)))
          / (2 * (xyyVisionCurve : QuadraticPolynomial ℝ).xSquare)) :=
  ⟨by rw [discriminant_black]; positivity,
    root_selection ⟨-1055 / 4013, 901687 / 2006500⟩ 1
      (by rw [discriminant_black]; positivity)⟩

/-! ### The confusion line -/

theorem confusionLine_at_point (p : Xyy ℝ) (h : p.x < 0.747) :
    (xyyLine xyyConfusionPoint p).m * p.x + (xyyLine xyyConfusionPoint p).b = p.y := by
  rw [confusionLine_eq p h]
  simp only
  ring

/-- Claim C18 (the confusion line is never vertical): for every `Rgb` with all
channels in `[0, 255]`, `rgbToXyz` succeeds and the `x` of `xyzToXyy (rgbToXyz rgb)`
is strictly less than the confusion point's `x = 0.747`; so the denominator of the
slope that `xyyLine xyyConfusionPoint xyy` computes is not zero, and the line
passes through the confusion point and through the input chromaticity. -/
theorem confusionLine_not_vertical (rgb : Rgb ℝ) (h : rgb.InRange) :
    ∃ xyz, rgbToXyz Real.rpow rgb = .ok xyz ∧
      (xyzToXyy xyz).x < (xyyConfusionPoint : Xyy ℝ).x ∧
      (xyyConfusionPoint : Xyy ℝ).x = 0.747 ∧
      (xyyConfusionPoint : Xyy ℝ).x - (xyzToXyy xyz).x ≠ 0 ∧
      (xyyLine xyyConfusionPoint (xyzToXyy xyz)).m =
        ((xyyConfusionPoint : Xyy ℝ).y - (xyzToXyy xyz).y)
          / ((xyyConfusionPoint : Xyy ℝ).x - (xyzToXyy xyz).x) ∧
      (xyyLine xyyConfusionPoint (xyzToXyy xyz)).m * (xyyConfusionPoint : Xyy ℝ).x
        + (xyyLine xyyConfusionPoint (xyzToXyy xyz)).b = (xyyConfusionPoint : Xyy ℝ).y ∧
      (xyyLine xyyConfusionPoint (xyzToXyy xyz)).m * (xyzToXyy xyz).x
        + (xyyLine xyyConfusionPoint (xyzToXyy xyz)).b = (xyzToXyy xyz).y := by
  obtain ⟨r, g, b, hr, hg, hb, -, -, -, hx⟩ := rgbToXyz_of_inRange rgb h
  have hlt := xyzToXyy_x_lt r g b hr hg hb
  refine ⟨_, hx, ?_, ?_, ?_, ?_, ?_, ?_⟩
  · simpa [xyyConfusionPoint] using hlt
  · simp [xyyConfusionPoint]
  · simp only [xyyConfusionPoint]
    linarith
  · rw [confusionLine_eq _ hlt]
    simp [xyyConfusionPoint]
  · have := confusionLine_at_confusionPoint _ hlt
    simpa [xyyConfusionPoint] using this
  · exact confusionLine_at_point _ hlt

/-- Claim C18 at pure blue, `Rgb(0, 0, 255)`. -/
theorem confusionLine_not_vertical_witness :
    Rgb.InRange (⟨0, 0, 255⟩ : Rgb ℝ) ∧
    ∃ xyz, rgbToXyz Real.rpow (⟨0, 0, 255⟩ : Rgb ℝ) = .ok xyz ∧
      (xyzToXyy xyz).x < (xyyConfusionPoint : Xyy ℝ).x ∧
      (xyyConfusionPoint : Xyy ℝ).x = 0.747 ∧
      (xyyConfusionPoint : Xyy ℝ).x - (xyzToXyy xyz).x ≠ 0 ∧
      (xyyLine xyyConfusionPoint (xyzToXyy xyz)).m =
        ((xyyConfusionPoint : Xyy ℝ).y - (xyzToXyy xyz).y)
          / ((xyyConfusionPoint : Xyy ℝ).x - (xyzToXyy xyz).x) ∧
      (xyyLine xyyConfusionPoint (xyzToXyy xyz)).m * (xyyConfusionPoint : Xyy ℝ).x
        + (xyyLine xyyConfusionPoint (xyzToXyy xyz)).b = (xyyConfusionPoint : Xyy ℝ).y ∧
      (xyyLine xyyConfusionPoint (xyzToXyy xyz)).m * (xyzToXyy xyz).x
        + (xyyLine xyyConfusionPoint (xyzToXyy xyz)).b = (xyzToXyy xyz).y :=
  ⟨by norm_num [Rgb.InRange],
    confusionLine_not_vertical ⟨0, 0, 255⟩ (by norm_num [Rgb.InRange])⟩

/-! ### Points on the curve and to the left of the confusion point -/

/-- If `x0` is a root of `A*x^2 + B*x + C` with `A < 0` and the quadratic is
positive at some `t > x0`, then `x0` is the root that `intersectCurveLineXyy`
selects. -/
theorem intersectCurveLineXyy_of_left_root (poly : QuadraticPolynomial ℝ) (line : Line ℝ)
    (x0 t Y : ℝ) (hA : poly.xSquare < 0)
    (hroot : poly.xSquare * x0 ^ 2 + (poly.x - line.m) * x0 + (poly.c - line.b) = 0)
    (ht : x0 < t)
    (hpos : 0 < poly.xSquare * t ^ 2 + (poly.x - line.m) * t + (poly.c - line.b)) :
    intersectCurveLineXyy Real.sqrt poly line Y = .ok ⟨x0, line.m * x0 + line.b, Y⟩ := by
  have hw : 0 < 2 * poly.xSquare * x0 + (poly.x - line.m) := by
    have h1 : 0 < (t - x0) * (poly.xSquare * (t + x0) + (poly.x - line.m)) := by
      have : (t - x0) * (poly.xSquare * (t + x0) + (poly.x - line.m))
          = poly.xSquare * t ^ 2 + (poly.x - line.m) * t + (poly.c - line.b)
            - (poly.xSquare * x0 ^ 2 + (poly.x - line.m) * x0 + (poly.c - line.b)) := by
        ring
      rw [this, hroot]
      linarith
    have h2 : 0 < poly.xSquare * (t + x0) + (poly.x - line.m) :=
      (pos_iff_pos_of_mul_pos h1).mp (by linarith)
    have h3 : 0 < poly.xSquare * (x0 - t) := mul_pos_of_neg_of_neg hA (by linarith)
    linarith
  have hD : discriminant poly line = (2 * poly.xSquare * x0 + (poly.x - line.m)) ^ 2 := by
    unfold discriminant
    norm_num
    linear_combination (-4 * poly.xSquare) * hroot
  have hd : 0 ≤ discriminant poly line := by
    rw [hD]
    positivity
  rw [intersectCurveLineXyy_of_nonneg _ _ _ _ hd, hD, Real.sqrt_sq hw.le]
  have hx : (-(poly.x - line.m) + (2 * poly.xSquare * x0 + (poly.x - line.m)))
      / (2.0 * poly.xSquare) = x0 := by
    have hA0 : poly.xSquare ≠ 0 := hA.ne
    norm_num
    field_simp
    ring
  rw [hx]

/-- Claim C20 (the projection fixes chromaticities on the curve): for every xyY
point `p` with `p.x < 0.747` whose `(x, y)` lies on `xyyVisionCurve`, and every
luminance `Y`, `intersectCurveLineXyy` applied to the curve and the confusion line
through `p` returns a point whose `x` and `y` are `p.x` and `p.y`. -/
theorem projection_fixes_curve (p : Xyy ℝ) (Y : ℝ) (hx : p.x < 0.747)
    (hon : p.y = (xyyVisionCurve : QuadraticPolynomial ℝ).xSquare * p.x ^ 2
      + (xyyVisionCurve : QuadraticPolynomial ℝ).x * p.x
      + (xyyVisionCurve : QuadraticPolynomial ℝ).c) :
    ∃ q, intersectCurveLineXyy Real.sqrt xyyVisionCurve (xyyLine xyyConfusionPoint p) Y
        = .ok q ∧ q.x = p.x ∧ q.y = p.y ∧ q.Y = Y := by
  have h1 := confusionLine_at_point p hx
  have h2 := confusionLine_at_confusionPoint p hx
  have h3 := visionCurve_above_confusionPoint
  have h4 : (0.253 : ℝ) ≠ (xyyVisionCurve : QuadraticPolynomial ℝ).xSquare * (0.747 : ℝ) ^ 2
      + (xyyVisionCurve : QuadraticPolynomial ℝ).x * 0.747
      + (xyyVisionCurve : QuadraticPolynomial ℝ).c := by
    rw [xyyVisionCurve_eq]
    norm_num
  refine ⟨_, intersectCurveLineXyy_of_left_root xyyVisionCurve _ p.x 0.747 Y
    (by rw [xyyVisionCurve_eq]; norm_num) (by linarith) hx ?_, rfl, h1, rfl⟩
  have h5 := lt_of_le_of_ne h3 h4
  linarith

/-- Claim C20 at the D50 white point, which lies on the curve. -/
theorem projection_fixes_curve_witness :
    ((XYY_WHITE_D50 : Xyy ℝ).x < 0.747 ∧
      (XYY_WHITE_D50 : Xyy ℝ).y
        = (xyyVisionCurve : QuadraticPolynomial ℝ).xSquare * (XYY_WHITE_D50 : Xyy ℝ).x ^ 2
          + (xyyVisionCurve : QuadraticPolynomial ℝ).x * (XYY_WHITE_D50 : Xyy ℝ).x
          + (xyyVisionCurve : QuadraticPolynomial ℝ).c) ∧
    ∃ q, intersectCurveLineXyy Real.sqrt xyyVisionCurve
        (xyyLine xyyConfusionPoint (XYY_WHITE_D50 : Xyy ℝ)) 0.5
        = .ok q ∧ q.x = (XYY_WHITE_D50 : Xyy ℝ).x ∧ q.y = (XYY_WHITE_D50 : Xyy ℝ).y ∧
      q.Y = 0.5 :=
  ⟨⟨by norm_num [XYY_WHITE_D50],
      by rw [xyyVisionCurve_eq]; norm_num [XYY_WHITE_D50]⟩,
    projection_fixes_curve XYY_WHITE_D50 0.5 (by norm_num [XYY_WHITE_D50])
      (by rw [xyyVisionCurve_eq]; norm_num [XYY_WHITE_D50])⟩

/-! ### White -/

theorem rgbToXyz_white :
    rgbToXyz Real.rpow ⟨255, 255, 255⟩ = .ok ⟨48211 / 50000, 1, 82521 / 100000⟩ := by
  unfold rgbToXyz
  simp only [div_self (show (255 : ℝ) ≠ 0 by norm_num), srgbToLinearGamma_one]
  norm_num

theorem xyzToXyy_white :
    xyzToXyy (⟨48211 / 50000, 1, 82521 / 100000⟩ : Xyz ℝ) =
      ⟨2606 / 7539, 100000 / 278943, 1⟩ := by
  unfold xyzToXyy
  norm_num

theorem confusionLine_white (Y : ℝ) :
    xyyLine xyyConfusionPoint (⟨2606 / 7539, 100000 / 278943, Y⟩ : Xyy ℝ) =
      ⟨-29427421 / 111948421, 50305234 / 111948421⟩ := by
  rw [confusionLine_eq _ (by norm_num)]
  norm_num

theorem discriminant_white :
    discriminant xyyVisionCurve (⟨-29427421 / 111948421, 50305234 / 111948421⟩ : Line ℝ) =
      655792804799171169525666748551834816640 /
        279679878889304860657005124472388689769 := by
  rw [xyyVisionCurve_eq]
  unfold discriminant
  norm_num

theorem intersection_white_bounds :
    (0.345692215945 : ℝ) ≤
      (-(230815090193 / 149386942647 - -29427421 / 111948421 : ℝ)
      + Real.sqrt (655792804799171169525666748551834816640 /
        279679878889304860657005124472388689769))
      / (2.0 * (-59780900000 / 149386942647)) ∧
    (-(230815090193 / 149386942647 - -29427421 / 111948421 : ℝ)
      + Real.sqrt (655792804799171169525666748551834816640 /
        279679878889304860657005124472388689769))
      / (2.0 * (-59780900000 / 149386942647)) ≤ 0.345692215946 := by
  have hs1 : (1.53127330783559 : ℝ) ≤
      Real.sqrt (655792804799171169525666748551834816640 /
        279679878889304860657005124472388689769) := by
    apply Real.le_sqrt_of_sq_le
    norm_num
  have hs2 : Real.sqrt (655792804799171169525666748551834816640 /
        279679878889304860657005124472388689769) ≤ (1.5312733078356 : ℝ) := by
    rw [Real.sqrt_le_iff]
    constructor <;> norm_num
  generalize Real.sqrt (655792804799171169525666748551834816640 /
        279679878889304860657005124472388689769) = s at hs1 hs2 ⊢
  constructor
  · rw [le_div_iff_of_neg (by norm_num)]
    norm_num
    linarith
  · rw [div_le_iff_of_neg (by norm_num)]
    norm_num
    linarith

theorem moveWithinRgb_white (x Y : ℝ) (h1 : 0.34 ≤ x) (h2 : x ≤ 0.35) :
    moveWithinRgb (⟨-29427421 / 111948421, 50305234 / 111948421⟩ : Line ℝ)
      ⟨x, -29427421 / 111948421 * x + 50305234 / 111948421, Y⟩ =
      ⟨x, -29427421 / 111948421 * x + 50305234 / 111948421, Y⟩ := by
  unfold moveWithinRgb
  have hg : ¬ x < (XYY_GREEN_PRIMARY : Xyy ℝ).x := by
    unfold XYY_GREEN_PRIMARY
    simp only
    rw [not_lt]
    linarith
  simp only [hg, if_false]
  rw [greenRedLine_eq]
  simp only
  rw [if_neg (by rw [gt_iff_lt, not_lt]; linarith)]

theorem getProtanLuminance_white :
    getProtanLuminance (⟨48211 / 50000, 1, 82521 / 100000⟩ : Xyz ℝ)
      = 99880501 / 100000000 := by
  unfold getProtanLuminance
  norm_num

/-- White is a fixed point of the simulation: the three channels come out between
`254.85` and `254.9` and round to `255`. -/
theorem getProtoColor_white :
    getProtoColor Real.rpow Real.sqrt ⟨255, 255, 255⟩ = .ok ⟨255, 255, 255⟩ := by
  rw [getProtoColor_of_rgbToXyz _ _ rgbToXyz_white (by rw [xyzToXyy_white]; norm_num) _ rfl]
  rw [xyzToXyy_white, confusionLine_white, discriminant_white, xyyVisionCurve_eq,
    getProtanLuminance_white]
  simp only
  obtain ⟨hx1, hx2⟩ := intersection_white_bounds
  generalize (-(230815090193 / 149386942647 - -29427421 / 111948421 : ℝ)
      + Real.sqrt (655792804799171169525666748551834816640 /
        279679878889304860657005124472388689769))
      / (2.0 * (-59780900000 / 149386942647)) = x at hx1 hx2 ⊢
  rw [moveWithinRgb_white x _ (by linarith) (by linarith)]
  have hy : (0 : ℝ) < -29427421 / 111948421 * x + 50305234 / 111948421 := by linarith
  unfold xyyToXyz
  rw [if_pos hy.ne']
  unfold xyzToRgb
  simp only
  obtain ⟨hr1, -⟩ := channel_bounds x _ (99880501 / 100000000)
    3.1338561 (-1.6168667) (-0.4906146) 0.9990733794 1 hy (by linarith) (by linarith)
  obtain ⟨hg1, -⟩ := channel_bounds x _ (99880501 / 100000000)
    (-0.9787684) 1.9161415 0.0334540 0.9987251837 1 hy (by linarith) (by linarith)
  obtain ⟨hb1, -⟩ := channel_bounds x _ (99880501 / 100000000)
    0.0719453 (-0.2289914) 1.4052427 0.9987639164 1 hy (by linarith) (by linarith)
  rw [clamp_cRound_gamma_top _ _ (by norm_num) hr1 (by norm_num),
    clamp_cRound_gamma_top _ _ (by norm_num) hg1 (by norm_num),
    clamp_cRound_gamma_top _ _ (by norm_num) hb1 (by norm_num)]

/-- Claim C11 (white and black are preserved): `getProtoColor (Rgb(255,255,255))`
returns `Rgb(255,255,255)` and `getProtoColor (Rgb(0,0,0))` returns `Rgb(0,0,0)`,
channel for channel; for black, whose XYZ is zero, no assertion fails and the
chromaticity is the white default of `xyzToXyy`. -/
theorem white_black_preserved :
    getProtoColor Real.rpow Real.sqrt ⟨255, 255, 255⟩ = .ok ⟨255, 255, 255⟩ ∧
    getProtoColor Real.rpow Real.sqrt ⟨0, 0, 0⟩ = .ok ⟨0, 0, 0⟩ ∧
    rgbToXyz Real.rpow ⟨0, 0, 0⟩ = .ok ⟨0, 0, 0⟩ ∧
    xyzToXyy (⟨0, 0, 0⟩ : Xyz ℝ) = ⟨0.3457, 0.3585, 0⟩ :=
  ⟨getProtoColor_white, getProtoColor_black, rgbToXyz_black, xyzToXyy_black⟩

/-! ### The exact round trip between XYZ and xyY -/

section RoundTrip

variable {α : Type} [LinearOrderedField α]

/-- Going from xyY to XYZ and back is exact when `y` and `Y` are not zero: the sum
of the XYZ components is `Y / y`. -/
theorem xyzToXyy_xyyToXyz (p : Xyy α) (hy : p.y ≠ 0) (hY : p.Y ≠ 0) :
    xyzToXyy (xyyToXyz p) = p := by
  obtain ⟨x, y, Y⟩ := p
  simp only at hy hY
  have hsum : x * Y / y + Y + (1 - x - y) * Y / y = Y / y := by
    field_simp
    ring
  have hne : Y / y ≠ 0 := div_ne_zero hY hy
  unfold xyyToXyz xyzToXyy
  simp only [hy, ne_eq, not_false_eq_true, if_true, hsum, hne]
  congr 1
  · field_simp
  · field_simp

/-- Claim C21 (exact XYZ and xyY round trip): for every `Xyz` `v` with
`v.x + v.y + v.z ≠ 0` and `v.y ≠ 0`, `xyyToXyz (xyzToXyy v) = v`; and for every
`Xyy` `p` with `p.y ≠ 0` and `p.Y ≠ 0`, `xyzToXyy (xyyToXyz p) = p`.  The
equalities are exact, in any ordered field. -/
theorem xyz_xyy_roundtrip :
    (∀ v : Xyz α, v.x + v.y + v.z ≠ 0 → v.y ≠ 0 → xyyToXyz (xyzToXyy v) = v) ∧
    (∀ p : Xyy α, p.y ≠ 0 → p.Y ≠ 0 → xyzToXyy (xyyToXyz p) = p) :=
  ⟨xyyToXyz_xyzToXyy, xyzToXyy_xyyToXyz⟩

end RoundTrip

/-! ### Greys: `Rgb(n, n, n)` -/

theorem srgbToLinearGamma_pos (v y : ℝ) (hv : 0 < v)
    (h : srgbToLinearGamma Real.rpow v = .ok y) : 0 < y := by
  have hr := (srgbToLinearGamma_isOk_iff Real.rpow v).1 ⟨y, h⟩
  by_cases h2 : v < 0.04045
  · rw [srgbToLinearGamma_of_lt v hr.1 h2] at h
    simp only [Except.ok.injEq] at h
    rw [← h]
    positivity
  · rw [srgbToLinearGamma_of_ge v (not_lt.mp h2) hr.2] at h
    simp only [Except.ok.injEq] at h
    rw [← h]
    apply Real.rpow_pos_of_pos
    positivity

theorem rgbToXyz_grey (v L : ℝ) (hL : srgbToLinearGamma Real.rpow (v / 255) = .ok L) :
    rgbToXyz Real.rpow ⟨v, v, v⟩ =
      .ok ⟨L * 0.4360747 + L * 0.3850649 + L * 0.1430804,
        L * 0.2225045 + L * 0.7168786 + L * 0.0606169,
        L * 0.0139322 + L * 0.0971045 + L * 0.7141733⟩ := by
  unfold rgbToXyz
  simp only [hL]

theorem xyzToXyy_grey (L : ℝ) (hL : 0 < L) :
    xyzToXyy (⟨L * 0.4360747 + L * 0.3850649 + L * 0.1430804,
        L * 0.2225045 + L * 0.7168786 + L * 0.0606169,
        L * 0.0139322 + L * 0.0971045 + L * 0.7141733⟩ : Xyz ℝ) =
      ⟨2606 / 7539, 100000 / 278943,
        L * 0.2225045 + L * 0.7168786 + L * 0.0606169⟩ := by
  have hs : L * 0.4360747 + L * 0.3850649 + L * 0.1430804
      + (L * 0.2225045 + L * 0.7168786 + L * 0.0606169)
      + (L * 0.0139322 + L * 0.0971045 + L * 0.7141733) ≠ 0 := by
    apply ne_of_gt
    nlinarith
  unfold xyzToXyy
  simp only [hs, ne_eq, not_false_eq_true, if_true]
  congr 1
  · field_simp
    ring
  · field_simp
    ring

theorem getProtanLuminance_grey (L : ℝ) :
    getProtanLuminance (⟨L * 0.4360747 + L * 0.3850649 + L * 0.1430804,
        L * 0.2225045 + L * 0.7168786 + L * 0.0606169,
        L * 0.0139322 + L * 0.0971045 + L * 0.7141733⟩ : Xyz ℝ)
      = L * (99880501 / 100000000) := by
  unfold getProtanLuminance
  ring

/-- The simulation of a grey of linear intensity `L > 0`: the chromaticity is that
of white, and every linear channel of the result lies in `[0.998 * L, L]`. -/
theorem getProtoColor_grey_linear (v L : ℝ)
    (hL : srgbToLinearGamma Real.rpow (v / 255) = .ok L) (hpos : 0 < L) :
    ∃ tr tg tb : ℝ, (0.998 * L ≤ tr ∧ tr ≤ L) ∧ (0.998 * L ≤ tg ∧ tg ≤ L) ∧
      (0.998 * L ≤ tb ∧ tb ≤ L) ∧
      getProtoColor Real.rpow Real.sqrt ⟨v, v, v⟩ = .ok
        ⟨clamp 0 (cRound (255 * linearToSrgbGamma Real.rpow tr)) 255,
          clamp 0 (cRound (255 * linearToSrgbGamma Real.rpow tg)) 255,
          clamp 0 (cRound (255 * linearToSrgbGamma Real.rpow tb)) 255⟩ := by
  rw [getProtoColor_of_rgbToXyz _ _ (rgbToXyz_grey v L hL)
    (by rw [xyzToXyy_grey L hpos]; norm_num) _ rfl]
  rw [xyzToXyy_grey L hpos, confusionLine_white, discriminant_white, xyyVisionCurve_eq,
    getProtanLuminance_grey]
  simp only
  obtain ⟨hx1, hx2⟩ := intersection_white_bounds
  generalize (-(230815090193 / 149386942647 - -29427421 / 111948421 : ℝ)
      + Real.sqrt (655792804799171169525666748551834816640 /
        279679878889304860657005124472388689769))
      / (2.0 * (-59780900000 / 149386942647)) = x at hx1 hx2 ⊢
  rw [moveWithinRgb_white x _ (by linarith) (by linarith)]
  have hy : (0 : ℝ) < -29427421 / 111948421 * x + 50305234 / 111948421 := by linarith
  unfold xyyToXyz
  rw [if_pos hy.ne']
  unfold xyzToRgb
  simp only
  have key : ∀ a1 a2 a3 : ℝ,
      0 ≤ 99880501 / 100000000 * (a1 * x + a2 * (-29427421 / 111948421 * x
          + 50305234 / 111948421) + a3 * (1 - x - (-29427421 / 111948421 * x
          + 50305234 / 111948421)))
        - 0.998 * (-29427421 / 111948421 * x + 50305234 / 111948421) →
      0 ≤ (-29427421 / 111948421 * x + 50305234 / 111948421)
        - 99880501 / 100000000 * (a1 * x + a2 * (-29427421 / 111948421 * x
          + 50305234 / 111948421) + a3 * (1 - x - (-29427421 / 111948421 * x
          + 50305234 / 111948421))) →
      0.998 * L ≤ x * (L * (99880501 / 100000000))
            / (-29427421 / 111948421 * x + 50305234 / 111948421) * a1
          + L * (99880501 / 100000000) * a2
          + (1 - x - (-29427421 / 111948421 * x + 50305234 / 111948421))
            * (L * (99880501 / 100000000))
            / (-29427421 / 111948421 * x + 50305234 / 111948421) * a3 ∧
        x * (L * (99880501 / 100000000))
            / (-29427421 / 111948421 * x + 50305234 / 111948421) * a1
          + L * (99880501 / 100000000) * a2
          + (1 - x - (-29427421 / 111948421 * x + 50305234 / 111948421))
            * (L * (99880501 / 100000000))
            / (-29427421 / 111948421 * x + 50305234 / 111948421) * a3 ≤ L := by
    intro a1 a2 a3 h1 h2
    apply channel_bounds x _ (L * (99880501 / 100000000)) a1 a2 a3 (0.998 * L) L hy
    · nlinarith [mul_nonneg hpos.le h1]
    · nlinarith [mul_nonneg hpos.le h2]
  exact ⟨_, _, _, key 3.1338561 (-1.6168667) (-0.4906146) (by linarith) (by linarith),
    key (-0.9787684) 1.9161415 0.0334540 (by linarith) (by linarith),
    key 0.0719453 (-0.2289914) 1.4052427 (by linarith) (by linarith), rfl⟩

theorem rpow_five_twelfths_grey_factor : (0.999 : ℝ) ≤ (0.998 : ℝ) ^ (5 / 12 : ℝ) := by
  rw [le_rpow_five_twelfths_iff _ _ (by norm_num) (by norm_num)]
  norm_num

/-- A linear channel in `[0.998 * L, L]`, where `L` is the linear intensity of the
integer channel value `n`, comes back to `n` after the gamma curve and rounding. -/
theorem clamp_cRound_grey (n : ℕ) (hn1 : 1 ≤ n) (hn : n ≤ 255) (L t : ℝ)
    (hL : srgbToLinearGamma Real.rpow ((n : ℝ) / 255) = .ok L)
    (h1 : 0.998 * L ≤ t) (h2 : t ≤ L) :
    clamp 0 (cRound (255 * linearToSrgbGamma Real.rpow t)) 255 = (n : ℝ) := by
  have hn1' : (1 : ℝ) ≤ n := by exact_mod_cast hn1
  have hn' : (n : ℝ) ≤ 255 := by exact_mod_cast hn
  have hv0 : (0 : ℝ) < (n : ℝ) / 255 := by positivity
  have hLpos := srgbToLinearGamma_pos _ _ hv0 hL
  have ht0 : 0 ≤ t := by nlinarith
  by_cases hb : (n : ℝ) / 255 < 0.04045
  · rw [srgbToLinearGamma_of_lt _ hv0.le hb] at hL
    simp only [Except.ok.injEq] at hL
    have hn10 : (n : ℝ) ≤ 10 := by
      have h10 : n ≤ 10 := by
        by_contra hc
        have h11 : 11 ≤ n := by omega
        have h11' : (11 : ℝ) ≤ n := by exact_mod_cast h11
        rw [div_lt_iff₀ (by norm_num)] at hb
        linarith
      exact_mod_cast h10
    have hLn : L * (255 * 12.92) = n := by
      rw [← hL]
      field_simp
    rw [linearToSrgbGamma_of_le t (by nlinarith)]
    apply clamp_cRound_of_mem _ n hn
    · positivity
    · nlinarith
    · nlinarith
  · have hb' : (0.04045 : ℝ) ≤ (n : ℝ) / 255 := not_lt.mp hb
    have hn11 : (11 : ℝ) ≤ n := by
      have h11 : 11 ≤ n := by
        by_contra hc
        have h10 : n ≤ 10 := by omega
        have h10' : (n : ℝ) ≤ 10 := by exact_mod_cast h10
        rw [le_div_iff₀ (by norm_num)] at hb'
        linarith
      exact_mod_cast h11
    rw [srgbToLinearGamma_of_ge _ hb' (by rw [div_le_iff₀ (by norm_num)]; linarith)] at hL
    simp only [Except.ok.injEq] at hL
    have hu0 : (0.093 : ℝ) ≤ ((n : ℝ) / 255 + 0.055) / 1.055 := by
      rw [le_div_iff₀ (by norm_num), ← sub_le_iff_le_add, le_div_iff₀ (by norm_num)]
      linarith
    have hu : (0 : ℝ) ≤ ((n : ℝ) / 255 + 0.055) / 1.055 := by linarith
    have hLlo : (0.00314 : ℝ) ≤ L := by
      rw [← hL, le_rpow_twelve_fifths_iff _ _ (by norm_num) hu]
      calc (0.00314 : ℝ) ^ 5 ≤ (0.093 : ℝ) ^ 12 := by norm_num
        _ ≤ (((n : ℝ) / 255 + 0.055) / 1.055) ^ 12 :=
          pow_le_pow_left₀ (by norm_num) hu0 12
    have hLp : L ^ (5 / 12 : ℝ) = ((n : ℝ) / 255 + 0.055) / 1.055 := by
      rw [← hL, rpow_twelve_fifths_five_twelfths _ hu]
    have hup : t ^ (5 / 12 : ℝ) ≤ ((n : ℝ) / 255 + 0.055) / 1.055 := by
      rw [← hLp]
      exact Real.rpow_le_rpow ht0 h2 (by norm_num)
    have hlow : 0.999 * (((n : ℝ) / 255 + 0.055) / 1.055) ≤ t ^ (5 / 12 : ℝ) := by
      have h3 : (0.998 * L) ^ (5 / 12 : ℝ) ≤ t ^ (5 / 12 : ℝ) :=
        Real.rpow_le_rpow (by positivity) h1 (by norm_num)
      rw [Real.mul_rpow (by norm_num) hLpos.le, hLp] at h3
      have h4 := rpow_five_twelfths_grey_factor
      nlinarith
    have hu1 : 1.055 * (((n : ℝ) / 255 + 0.055) / 1.055) = (n : ℝ) / 255 + 0.055 := by
      field_simp
      ring
    have hn255 : 255 * ((n : ℝ) / 255) = n := by field_simp
    rw [linearToSrgbGamma_of_gt t (by linarith)]
    generalize t ^ (5 / 12 : ℝ) = w at hup hlow ⊢
    generalize ((n : ℝ) / 255 + 0.055) / 1.055 = u at hup hlow hu1
    generalize (n : ℝ) / 255 = q at hu1 hn255
    apply clamp_cRound_of_mem _ n hn
    · linarith
    · linarith
    · linarith

/-- Every grey `Rgb(n, n, n)` with an integer `0 ≤ n ≤ 255` is a fixed point of the
simulation. -/
theorem getProtoColor_grey (n : ℕ) (hn : n ≤ 255) :
    getProtoColor Real.rpow Real.sqrt ⟨(n : ℝ), (n : ℝ), (n : ℝ)⟩
      = .ok ⟨(n : ℝ), (n : ℝ), (n : ℝ)⟩ := by
  rcases Nat.eq_zero_or_pos n with h0 | h0
  · subst h0
    simp only [Nat.cast_zero]
    exact getProtoColor_black
  · have hn1 : 1 ≤ n := h0
    have hn' : (n : ℝ) ≤ 255 := by exact_mod_cast hn
    have hv0 : (0 : ℝ) < (n : ℝ) / 255 := by
      have : (0 : ℝ) < n := by exact_mod_cast h0
      positivity
    obtain ⟨L, hL⟩ := (srgbToLinearGamma_isOk_iff Real.rpow ((n : ℝ) / 255)).2
      ⟨hv0.le, by rw [div_le_iff₀ (by norm_num)]; linarith⟩
    have hLpos := srgbToLinearGamma_pos _ _ hv0 hL
    obtain ⟨tr, tg, tb, hr, hg, hb, heq⟩ := getProtoColor_grey_linear (n : ℝ) L hL hLpos
    rw [heq, clamp_cRound_grey n hn1 hn L tr hL hr.1 hr.2,
      clamp_cRound_grey n hn1 hn L tg hL hg.1 hg.2,
      clamp_cRound_grey n hn1 hn L tb hL hb.1 hb.2]

/-! ### The green and blue primaries -/

/-- The channels of `xyzToRgb (xyyToXyz p)` when `p.y` is not zero. -/
theorem xyzToRgb_xyyToXyz (x y Y : ℝ) (hy : y ≠ 0) :
    xyzToRgb Real.rpow (xyyToXyz (⟨x, y, Y⟩ : Xyy ℝ)) =
      ⟨255 * linearToSrgbGamma Real.rpow
          (x * Y / y * 3.1338561 + Y * -1.6168667 + (1 - x - y) * Y / y * -0.4906146),
        255 * linearToSrgbGamma Real.rpow
          (x * Y / y * -0.9787684 + Y * 1.9161415 + (1 - x - y) * Y / y * 0.0334540),
        255 * linearToSrgbGamma Real.rpow
          (x * Y / y * 0.0719453 + Y * -0.2289914 + (1 - x - y) * Y / y * 1.4052427)⟩ := by
  unfold xyyToXyz
  rw [if_pos hy]
  unfold xyzToRgb
  simp only

/-- A linear channel of at most `0.0001` rounds to `0`. -/
theorem clamp_cRound_gamma_low (t : ℝ) (h : t ≤ 0.0001) :
    clamp 0 (cRound (255 * linearToSrgbGamma Real.rpow t)) 255 = 0 := by
  rw [linearToSrgbGamma_of_le t (by linarith)]
  apply clamp_cRound_of_lt_half
  linarith

theorem xyzToXyy_green :
    xyzToXyy (⟨0.3850649, 0.7168786, 0.0971045⟩ : Xyz ℝ) =
      ⟨3850649 / 11990480, 3584393 / 5995240, 0.7168786⟩ := by
  unfold xyzToXyy
  norm_num

theorem confusionLine_green (Y : ℝ) :
    xyyLine xyyConfusionPoint (⟨3850649 / 11990480, 3584393 / 5995240, Y⟩ : Xyy ℝ) =
      ⟨-103379864 / 127655989, 876173789 / 1021247912⟩ := by
  rw [confusionLine_eq _ (by norm_num)]
  norm_num

theorem discriminant_green :
    discriminant xyyVisionCurve (⟨-103379864 / 127655989, 876173789 / 1021247912⟩ : Line ℝ) =
      1442941953907348546796206807256656177465 /
        363670159803023278734293569112328271689 := by
  rw [xyyVisionCurve_eq]
  unfold discriminant
  norm_num

/-- The curve intersection of the green confusion line lies right of `x = 0.45`. -/
theorem intersection_green_ge :
    (0.45 : ℝ) ≤ (-(230815090193 / 149386942647 - -103379864 / 127655989 : ℝ)
      + Real.sqrt (1442941953907348546796206807256656177465 /
        363670159803023278734293569112328271689))
      / (2.0 * (-59780900000 / 149386942647)) := by
  have hs : Real.sqrt (1442941953907348546796206807256656177465 /
        363670159803023278734293569112328271689) ≤ (1.993 : ℝ) := by
    rw [Real.sqrt_le_iff]
    constructor <;> norm_num
  generalize Real.sqrt (1442941953907348546796206807256656177465 /
        363670159803023278734293569112328271689) = s at hs ⊢
  rw [le_div_iff_of_neg (by norm_num)]
  norm_num
  linarith

/-- On the green confusion line a point right of `x = 0.45` lies beyond the
green-red edge and is moved back to the edge, next to the green primary. -/
theorem moveWithinRgb_green (x Y : ℝ) (hx : 0.45 ≤ x) :
    ∃ nx ny : ℝ, (0.321142 ≤ nx ∧ nx ≤ 0.321143) ∧ (0.597873 ≤ ny ∧ ny ≤ 0.597874) ∧
      moveWithinRgb (⟨-103379864 / 127655989, 876173789 / 1021247912⟩ : Line ℝ)
        ⟨x, -103379864 / 127655989 * x + 876173789 / 1021247912, Y⟩ = ⟨nx, ny, Y⟩ := by
  unfold moveWithinRgb
  have h1 : ¬ x < (XYY_GREEN_PRIMARY : Xyy ℝ).x := by
    unfold XYY_GREEN_PRIMARY
    simp only
    rw [not_lt]
    linarith
  simp only [h1, if_false]
  rw [greenRedLine_eq]
  simp only
  rw [if_pos (by linarith)]
  refine ⟨_, _, ?_, ?_, rfl⟩
  · constructor <;> norm_num
  · constructor <;> norm_num

theorem getProtanLuminance_green :
    getProtanLuminance (⟨0.3850649, 0.7168786, 0.0971045⟩ : Xyz ℝ) = 0.8069157179 := by
  unfold getProtanLuminance
  norm_num

/-- The green primary is a fixed point of the simulation: its green channel comes
out above `255` and is clamped. -/
theorem getProtoColor_green :
    getProtoColor Real.rpow Real.sqrt ⟨0, 255, 0⟩ = .ok ⟨0, 255, 0⟩ := by
  rw [getProtoColor_of_rgbToXyz _ _ rgbToXyz_green (by rw [xyzToXyy_green]; norm_num) _ rfl]
  rw [xyzToXyy_green, confusionLine_green, discriminant_green, xyyVisionCurve_eq,
    getProtanLuminance_green]
  simp only
  obtain ⟨nx, ny, hnx, hny, heq⟩ := moveWithinRgb_green _ 0.8069157179 intersection_green_ge
  rw [heq]
  have hy : (0 : ℝ) < ny := by linarith
  rw [xyzToRgb_xyyToXyz nx ny _ hy.ne']
  simp only
  obtain ⟨-, hr2⟩ := channel_bounds nx ny 0.8069157179
    3.1338561 (-1.6168667) (-0.4906146) (-0.0001) 0.0001 hy (by linarith) (by linarith)
  obtain ⟨hg1, -⟩ := channel_bounds nx ny 0.8069157179
    (-0.9787684) 1.9161415 0.0334540 1.1 2 hy (by linarith) (by linarith)
  obtain ⟨-, hb2⟩ := channel_bounds nx ny 0.8069157179
    0.0719453 (-0.2289914) 1.4052427 (-0.0001) 0.0001 hy (by linarith) (by linarith)
  rw [clamp_cRound_gamma_low _ hr2, clamp_cRound_gamma_top _ _ (by norm_num) hg1 (by norm_num),
    clamp_cRound_gamma_low _ hb2]

theorem xyzToXyy_blue :
    xyzToXyy (⟨0.1430804, 0.0606169, 0.7141733⟩ : Xyz ℝ) =
      ⟨715402 / 4589353, 606169 / 9178706, 0.0606169⟩ := by
  unfold xyzToXyy
  norm_num

theorem getProtanLuminance_blue :
    getProtanLuminance (⟨0.1430804, 0.0606169, 0.7141733⟩ : Xyz ℝ)
      = 27716527 / 312500000 := by
  unfold getProtanLuminance
  norm_num

/-- The blue primary is a fixed point of the simulation: the result is moved to the
blue-green edge, its blue channel comes out above `255` and is clamped. -/
theorem getProtoColor_blue :
    getProtoColor Real.rpow Real.sqrt ⟨0, 0, 255⟩ = .ok ⟨0, 0, 255⟩ := by
  rw [getProtoColor_of_rgbToXyz _ _ rgbToXyz_blue (by rw [xyzToXyy_blue]; norm_num) _ rfl]
  rw [xyzToXyy_blue, confusionLine_blue, discriminant_blue, xyyVisionCurve_eq,
    getProtanLuminance_blue]
  simp only
  rw [moveWithinRgb_blue _ _ intersection_blue_lt]
  have hnx : (0.155882 : ℝ) ≤ 1014005170387305115555099779517678662304559 /
          6504912861205992784782438750000000000000000 ∧
      (1014005170387305115555099779517678662304559 /
          6504912861205992784782438750000000000000000 : ℝ) ≤ 0.155883 := by
    constructor <;> norm_num
  have hny : (0.06604 : ℝ) ≤ 429589587482633782426197514091974393203941 /
          6504912861205992784782438750000000000000000 ∧
      (429589587482633782426197514091974393203941 /
          6504912861205992784782438750000000000000000 : ℝ) ≤ 0.066041 := by
    constructor <;> norm_num
  generalize (1014005170387305115555099779517678662304559 /
          6504912861205992784782438750000000000000000 : ℝ) = nx at hnx ⊢
  generalize (429589587482633782426197514091974393203941 /
          6504912861205992784782438750000000000000000 : ℝ) = ny at hny ⊢
  have hy : (0 : ℝ) < ny := by linarith
  rw [xyzToRgb_xyyToXyz nx ny _ hy.ne']
  simp only
  obtain ⟨-, hr2⟩ := channel_bounds nx ny (27716527 / 312500000)
    3.1338561 (-1.6168667) (-0.4906146) (-0.0001) 0.0001 hy (by linarith) (by linarith)
  obtain ⟨-, hg2⟩ := channel_bounds nx ny (27716527 / 312500000)
    (-0.9787684) 1.9161415 0.0334540 (-0.0001) 0.0001 hy (by linarith) (by linarith)
  obtain ⟨hb1, -⟩ := channel_bounds nx ny (27716527 / 312500000)
    0.0719453 (-0.2289914) 1.4052427 1.4 2 hy (by linarith) (by linarith)
  rw [clamp_cRound_gamma_low _ hr2, clamp_cRound_gamma_low _ hg2,
    clamp_cRound_gamma_top _ _ (by norm_num) hb1 (by norm_num)]

/-! ### Applying the simulation twice -/

theorem visionCurve_above_confusionPoint_lt :
    (0.253 : ℝ) < (xyyVisionCurve : QuadraticPolynomial ℝ).xSquare * (0.747 : ℝ) ^ 2 +
      (xyyVisionCurve : QuadraticPolynomial ℝ).x * 0.747 +
      (xyyVisionCurve : QuadraticPolynomial ℝ).c := by
  rw [xyyVisionCurve_eq]
  norm_num

/-- A point of the vision curve to the left of the confusion point is returned
unchanged by the intersection with its own confusion line. -/
theorem intersectCurveLineXyy_of_on_curve (q : Xyy ℝ) (Y : ℝ) (hx : q.x < 0.747)
    (hon : q.y = (xyyVisionCurve : QuadraticPolynomial ℝ).xSquare * q.x ^ 2
      + (xyyVisionCurve : QuadraticPolynomial ℝ).x * q.x
      + (xyyVisionCurve : QuadraticPolynomial ℝ).c) :
    intersectCurveLineXyy Real.sqrt xyyVisionCurve (xyyLine xyyConfusionPoint q) Y
      = .ok ⟨q.x, q.y, Y⟩ := by
  have h1 := confusionLine_at_point q hx
  have h2 := confusionLine_at_confusionPoint q hx
  have h3 := visionCurve_above_confusionPoint_lt
  rw [intersectCurveLineXyy_of_left_root xyyVisionCurve _ q.x 0.747 Y
    (by rw [xyyVisionCurve_eq]; norm_num) (by linarith) hx (by linarith), h1]

/-- The projection onto the vision curve is idempotent: the intersection point of
the curve with the confusion line of a point left of the confusion point lies on the
curve, again left of the confusion point, and projecting it once more returns it,
whatever the luminance. -/
theorem projection_idempotent (p : Xyy ℝ) (lum : ℝ) (hx : p.x < 0.747) :
    ∃ q, intersectCurveLineXyy Real.sqrt xyyVisionCurve (xyyLine xyyConfusionPoint p) lum
        = .ok q ∧
      q.x < 0.747 ∧
      q.y = (xyyVisionCurve : QuadraticPolynomial ℝ).xSquare * q.x ^ 2
        + (xyyVisionCurve : QuadraticPolynomial ℝ).x * q.x
        + (xyyVisionCurve : QuadraticPolynomial ℝ).c ∧
      ∀ Y, intersectCurveLineXyy Real.sqrt xyyVisionCurve (xyyLine xyyConfusionPoint q) Y
        = .ok ⟨q.x, q.y, Y⟩ := by
  have hA : (xyyVisionCurve : QuadraticPolynomial ℝ).xSquare < 0 := by
    rw [xyyVisionCurve_eq]; norm_num
  have hd := discriminant_confusionLine_nonneg p hx
  obtain ⟨q, hq, hqx, -, hline, hcurve, -, -⟩ :=
    intersectCurveLineXyy_smaller_root xyyVisionCurve (xyyLine xyyConfusionPoint p) lum hA hd
  have h2 := confusionLine_at_confusionPoint p hx
  have h3 := visionCurve_above_confusionPoint_lt
  have hs0 : 0 ≤ Real.sqrt (discriminant xyyVisionCurve (xyyLine xyyConfusionPoint p)) :=
    Real.sqrt_nonneg _
  have hw : 0 ≤ 2 * (xyyVisionCurve : QuadraticPolynomial ℝ).xSquare * q.x
      + ((xyyVisionCurve : QuadraticPolynomial ℝ).x - (xyyLine xyyConfusionPoint p).m) := by
    have : 2 * (xyyVisionCurve : QuadraticPolynomial ℝ).xSquare * q.x
        = -((xyyVisionCurve : QuadraticPolynomial ℝ).x - (xyyLine xyyConfusionPoint p).m)
          + Real.sqrt (discriminant xyyVisionCurve (xyyLine xyyConfusionPoint p)) := by
      have hA0 : (xyyVisionCurve : QuadraticPolynomial ℝ).xSquare ≠ 0 := hA.ne
      rw [hqx]
      field_simp
    linarith
  have hlt : q.x < 0.747 := by
    by_contra hc
    have hc' : (0.747 : ℝ) ≤ q.x := not_lt.mp hc
    have hd0 : 0 ≤ q.x - 0.747 := by linarith
    have e1 : 0 ≤ (q.x - 0.747) * (2 * (xyyVisionCurve : QuadraticPolynomial ℝ).xSquare * q.x
      + ((xyyVisionCurve : QuadraticPolynomial ℝ).x - (xyyLine xyyConfusionPoint p).m)) :=
      mul_nonneg hd0 hw
    have e2 : 0 ≤ (-(xyyVisionCurve : QuadraticPolynomial ℝ).xSquare) * (q.x - 0.747) ^ 2 :=
      mul_nonneg (by linarith) (sq_nonneg _)
    nlinarith
  exact ⟨q, hq, hlt, hcurve, fun Y => intersectCurveLineXyy_of_on_curve q Y hlt hcurve⟩

/-- Claim C10 as amended (applying `getProtoColor` twice): for every `Rgb` `c` with
channels in `[0, 255]`, `getProtoColor c` returns a colour `c1` and `getProtoColor c1`
returns a colour `c2`, both with channels in `[0, 255]`.  If `c` is a grey
`Rgb(n, n, n)` with an integer `0 ≤ n ≤ 255` (black and white included), the green
primary `Rgb(0, 255, 0)` or the blue primary `Rgb(0, 0, 255)`, then `c1 = c` and
`c2 = c1`, so each channel of the twice-simulated colour differs from the
once-simulated one by less than `0.5`.  For every `c` the projection onto the
vision curve is idempotent: the intersection point `q` that `getProtoColor` computes
for `c` lies on the curve, left of the confusion point, and intersecting the curve
with the confusion line through `q` returns the chromaticity of `q` again, for
every luminance. -/
theorem getProtoColor_twice (c : Rgb ℝ) (h : c.InRange) :
    ∃ c1 c2 : Rgb ℝ, getProtoColor Real.rpow Real.sqrt c = .ok c1 ∧
      getProtoColor Real.rpow Real.sqrt c1 = .ok c2 ∧ c1.InRange ∧ c2.InRange ∧
      (((∃ n : ℕ, n ≤ 255 ∧ c = ⟨(n : ℝ), (n : ℝ), (n : ℝ)⟩) ∨ c = ⟨0, 255, 0⟩ ∨
          c = ⟨0, 0, 255⟩) →
        c1 = c ∧ c2 = c1 ∧
          |c2.r - c1.r| < 0.5 ∧ |c2.g - c1.g| < 0.5 ∧ |c2.b - c1.b| < 0.5) ∧
      ∃ xyz q, rgbToXyz Real.rpow c = .ok xyz ∧
        intersectCurveLineXyy Real.sqrt xyyVisionCurve
          (xyyLine xyyConfusionPoint (xyzToXyy xyz)) (getProtanLuminance xyz) = .ok q ∧
        q.x < 0.747 ∧
        q.y = (xyyVisionCurve : QuadraticPolynomial ℝ).xSquare * q.x ^ 2
          + (xyyVisionCurve : QuadraticPolynomial ℝ).x * q.x
          + (xyyVisionCurve : QuadraticPolynomial ℝ).c ∧
        ∀ Y, intersectCurveLineXyy Real.sqrt xyyVisionCurve (xyyLine xyyConfusionPoint q) Y
          = .ok ⟨q.x, q.y, Y⟩ := by
  obtain ⟨c1, h1⟩ := getProtoColor_isOk_of_inRange c h
  obtain ⟨hr, hg, hb, -, -⟩ := getProtoColor_ok_range Real.rpow Real.sqrt c c1 h1
  have hc1 : c1.InRange := ⟨hr.2, hg.2, hb.2⟩
  obtain ⟨c2, h2⟩ := getProtoColor_isOk_of_inRange c1 hc1
  obtain ⟨hr2, hg2, hb2, -, -⟩ := getProtoColor_ok_range Real.rpow Real.sqrt c1 c2 h2
  refine ⟨c1, c2, h1, h2, hc1, ⟨hr2.2, hg2.2, hb2.2⟩, ?_, ?_⟩
  · intro hfix
    have hc : getProtoColor Real.rpow Real.sqrt c = .ok c := by
      rcases hfix with ⟨n, hn, rfl⟩ | rfl | rfl
      · exact getProtoColor_grey n hn
      · exact getProtoColor_green
      · exact getProtoColor_blue
    have e1 : c1 = c := by
      rw [hc] at h1
      exact (Except.ok.inj h1).symm
    have e2 : c2 = c1 := by
      rw [e1, hc] at h2
      rw [e1]
      exact (Except.ok.inj h2).symm
    refine ⟨e1, e2, ?_, ?_, ?_⟩ <;>
    · rw [e2, sub_self, abs_zero]
      norm_num
  · obtain ⟨r, g, b, hr', hg', hb', -, -, -, hx⟩ := rgbToXyz_of_inRange c h
    obtain ⟨q, hq, hlt, hon, hfix⟩ :=
      projection_idempotent _ (getProtanLuminance (⟨r * 0.4360747 + g * 0.3850649
          + b * 0.1430804, r * 0.2225045 + g * 0.7168786 + b * 0.0606169,
          r * 0.0139322 + g * 0.0971045 + b * 0.7141733⟩ : Xyz ℝ))
        (xyzToXyy_x_lt r g b hr' hg' hb')
    exact ⟨_, q, hx, hq, hlt, hon, hfix⟩

/-- Claim C10 as amended, at the mid grey `Rgb(128, 128, 128)`: it is in range and
a grey, and the once- and twice-simulated colours are both `Rgb(128, 128, 128)`. -/
theorem getProtoColor_twice_witness :
    Rgb.InRange (⟨128, 128, 128⟩ : Rgb ℝ) ∧
    ∃ c1 c2 : Rgb ℝ, getProtoColor Real.rpow Real.sqrt ⟨128, 128, 128⟩ = .ok c1 ∧
      getProtoColor Real.rpow Real.sqrt c1 = .ok c2 ∧
      c1 = ⟨128, 128, 128⟩ ∧ c2 = c1 ∧
      |c2.r - c1.r| < 0.5 ∧ |c2.g - c1.g| < 0.5 ∧ |c2.b - c1.b| < 0.5 := by
  have hin : Rgb.InRange (⟨128, 128, 128⟩ : Rgb ℝ) := by norm_num [Rgb.InRange]
  obtain ⟨c1, c2, h1, h2, -, -, hfix, -⟩ := getProtoColor_twice ⟨128, 128, 128⟩ hin
  have hgrey : (∃ n : ℕ, n ≤ 255 ∧
      (⟨128, 128, 128⟩ : Rgb ℝ) = ⟨(n : ℝ), (n : ℝ), (n : ℝ)⟩) ∨
      (⟨128, 128, 128⟩ : Rgb ℝ) = ⟨0, 255, 0⟩ ∨ (⟨128, 128, 128⟩ : Rgb ℝ) = ⟨0, 0, 255⟩ :=
    Or.inl ⟨128, by norm_num, by norm_num⟩
  exact ⟨hin, c1, c2, h1, h2, hfix hgrey⟩

end VideoColorblind
